import Mathlib

/-!
The statistics flush of gridlock (`main.go`)

A shallow embedding of `writeStatsToFile` (src/main.go, lines 130-207), of
`getEnv` (lines 26-32), of the counting, the page name and the links computed by
the request handler (lines 64-107), and of the library calls they make
(`strings.Split`, `strings.Contains`, `strings.Join`, `strings.ReplaceAll`,
`strings.ToLower`, `strconv.Atoi`, `fmt.Sprintf`, `filepath.Join`,
`time.Month.String`, `cases.Title`).

Modelling choices.
* A Go string is the list of its characters.  The separators the program uses
  (comma, newline, double quote, sign and digit characters) are ASCII, so on
  well-formed UTF-8 text splitting, searching and parsing agree with the
  byte-wise Go functions.
* A Go `int` is a mathematical integer kept in the 64-bit range; additions of
  the program are wrapped with `wrapInt`.
* The map `stats` is represented by the list of its entries in the order in
  which `range stats` yields them; Go leaves that order unspecified, so
  statements about "every order" quantify over permutations of that list.
* A run-time panic is the value `none`.
* Paths are Unix paths: `filepath.Join` and `filepath.Clean` work on the
  separator `/`.
* The filesystem is the set of directories and the content of the regular files;
  whether a filesystem call succeeds is an input of each tick.
* The handler and the flush loop are interleaved sequentially: the requests
  counted between two deliveries of the ticker are recorded before the later
  one is processed.  `stepEvent` interleaves the requests counted while a tick
  is running with the accesses of the flush goroutine to the counter.
* Case conversion is the one of ASCII text; `fmt.Sprintf` with a computed format
  is modelled for the verbs `%s` and `%%`.
* The classifier `agents.IsCrawler` is a parameter; the table `names` is the one
  of the source.
-/

namespace Gridlock

/-- A Go string, as the sequence of its characters. -/
abbrev GoString := List Char

/-- Largest value of a Go `int` (64-bit platforms). -/
def maxInt : Int := 9223372036854775807

/-- Smallest value of a Go `int` (64-bit platforms). -/
def minInt : Int := -9223372036854775808

/-- Two-complement wrap-around of an integer into the range of a Go `int`. -/
def wrapInt (n : Int) : Int := (n + 9223372036854775808) % 18446744073709551616 - 9223372036854775808

/-- Go `strings.Contains(s, substr)`: `substr` occurs somewhere within `s`.
The empty string is contained in every string. -/
def contains : GoString → GoString → Bool
  | [], substr => substr.isPrefixOf []
  | c :: s, substr => substr.isPrefixOf (c :: s) || contains s substr

/-- Go `strings.Split(s, sep)` for a one-character separator: the pieces of `s`
between consecutive separators; always at least one piece. -/
def split (sep : Char) : GoString → List GoString
  | [] => [[]]
  | c :: s =>
    if c = sep then [] :: split sep s
    else
      match split sep s with
      | [] => [[c]]
      | piece :: pieces => (c :: piece) :: pieces

/-- Go `strings.Join(elems, sep)` for a one-character separator. -/
def join (sep : Char) : List GoString → GoString
  | [] => []
  | [a] => a
  | a :: b :: rest => a ++ sep :: join sep (b :: rest)

/-- The character of a decimal digit. -/
def digitChar : Nat → Char
  | 0 => '0'
  | 1 => '1'
  | 2 => '2'
  | 3 => '3'
  | 4 => '4'
  | 5 => '5'
  | 6 => '6'
  | 7 => '7'
  | 8 => '8'
  | _ => '9'

/-- Decimal digits of `n`, most significant first, prepended to `acc`;
`fuel` bounds the number of digits produced. -/
def formatNatAux : Nat → Nat → List Char → List Char
  | 0, _, acc => acc
  | fuel + 1, n, acc =>
    if n / 10 = 0 then digitChar (n % 10) :: acc
    else formatNatAux fuel (n / 10) (digitChar (n % 10) :: acc)

/-- Decimal rendering of a natural number (`0` is rendered `0`). -/
def formatNat (n : Nat) : GoString := formatNatAux (n + 1) n []

/-- The verb `%d` of `fmt.Sprintf` on an `int`. -/
def formatInt (n : Int) : GoString :=
  if n < 0 then '-' :: formatNat n.natAbs else formatNat n.natAbs

/-- The call `fmt.Sprintf("\"%s\",%d", k, n)` of lines 183 and 186: the key between
double quotes, a comma, the count in decimal. -/
def sprintf (k : GoString) (n : Int) : GoString :=
  '"' :: (k ++ '"' :: ',' :: formatInt n)

/-- Value of a decimal digit character, `none` for any other character. -/
def digitVal (c : Char) : Option Nat :=
  if 48 ≤ c.toNat ∧ c.toNat ≤ 57 then some (c.toNat - 48) else none

/-- Reads a run of decimal digits, accumulating into `acc`; `none` on a
character that is not a digit. -/
def parseDigits : List Char → Nat → Option Nat
  | [], acc => some acc
  | c :: cs, acc =>
    match digitVal c with
    | none => none
    | some d => parseDigits cs (acc * 10 + d)

/-- Go `strconv.Atoi`: an optional sign followed by at least one decimal digit
and nothing else, with a value in the range of `int`; `none` stands for a
non-nil error (syntax or range). -/
def atoi (s : GoString) : Option Int :=
  match s with
  | [] => none
  | c :: rest =>
    if c = '-' then
      match rest with
      | [] => none
      | _ :: _ =>
        match parseDigits rest 0 with
        | none => none
        | some n => if minInt ≤ -(n : Int) then some (-(n : Int)) else none
    else if c = '+' then
      match rest with
      | [] => none
      | _ :: _ =>
        match parseDigits rest 0 with
        | none => none
        | some n => if (n : Int) ≤ maxInt then some (n : Int) else none
    else
      match parseDigits (c :: rest) 0 with
      | none => none
      | some n => if (n : Int) ≤ maxInt then some (n : Int) else none

/-- The inner loop of lines 172-188 for one entry `(k, v)` of `stats`, run over
the lines still to be visited.  Returns the lines as they are after the loop
and whether `file.Close()` (line 179) was called; `none` is the index-out-of-range
panic of `strings.Split(line, ",")[1]` (line 174).

* a line that does not contain `k` is overwritten with `"k",v` (line 186);
* a line that contains `k` and whose second comma-separated field parses is
  overwritten with `"k",vInt+v` and the loop stops (lines 183-184);
* a line that contains `k` and whose second field does not parse is left as it
  is, the file is closed and the loop goes on (lines 177-181). -/
def innerLoop (k : GoString) (v : Int) : List GoString → Option (List GoString × Bool)
  | [] => some ([], false)
  | line :: rest =>
    if contains line k then
      match (split ',' line)[1]? with
      | none => none
      | some value =>
        match atoi value with
        | none =>
          match innerLoop k v rest with
          | none => none
          | some (rest', _) => some (line :: rest', true)
        | some vInt => some (sprintf k (wrapInt (vInt + v)) :: rest, false)
    else
      match innerLoop k v rest with
      | none => none
      | some (rest', closed) => some (sprintf k v :: rest', closed)

/-- The outer loop of lines 171-189: the entries of `stats`, in the order the
map iteration yields them, are processed one after the other on the same
slice `data`.  The flag records whether the file has been closed on the way. -/
def mergeLoop : List (GoString × Int) → List GoString → Bool → Option (List GoString × Bool)
  | [], data, closed => some (data, closed)
  | (k, v) :: entries, data, closed =>
    match innerLoop k v data with
    | none => none
    | some (data', c) => mergeLoop entries data' (closed || c)

/-- The merge step of lines 170-194 as a function of the bytes read from the
partition file: split on newline, run the loops, join with newline.  The result
is the content handed to `file.Write` and the closed flag. -/
def mergeContent (entries : List (GoString × Int)) (b : GoString) : Option (GoString × Bool) :=
  match mergeLoop entries (split '\n' b) false with
  | none => none
  | some (data, closed) => some (join '\n' data, closed)

/-- The map `stats` of line 22, as the list of its entries in iteration order. -/
abbrev Stats := List (GoString × Int)

/-- What the operating system answers to the calls of one tick:
`os.MkdirAll` (line 149), `os.OpenFile` (line 155), `io.ReadAll` (line 163, the
bytes read or an error) and `file.Write` on a file that is still open
(line 194). -/
structure FsEnv where
  mkdirOk : Bool
  openOk : Bool
  readResult : Option GoString
  writeOk : Bool

/-- How one iteration of the loop `for range ticker.C` (lines 138-204) ends. -/
inductive Outcome
  /-- `len(stats) == 0`: `continue` (lines 139-142). -/
  | idle
  /-- `os.MkdirAll` failed: `return err` (lines 150-152). -/
  | mkdirFailed
  /-- `os.OpenFile` failed: `continue` (lines 156-160). -/
  | openFailed
  /-- `io.ReadAll` failed: `continue` (lines 164-168). -/
  | readFailed
  /-- `file.Write` returned an error: `continue` (lines 195-199). -/
  | writeFailed
  /-- `file.Write` succeeded with this content (lines 194, 201-203). -/
  | written (content : GoString)
  deriving DecidableEq, Repr

/-- One iteration of the loop `for range ticker.C` (lines 138-204): the value of
`stats` after the iteration and how the iteration ended; `none` is a panic in
the merge loop.  A write on a file that the merge loop has closed (line 179)
fails with `os.ErrClosed`, whatever the filesystem would have answered. -/
def tick (env : FsEnv) (stats : Stats) : Option (Stats × Outcome) :=
  if stats.length = 0 then some (stats, Outcome.idle)
  else if env.mkdirOk = false then some (stats, Outcome.mkdirFailed)
  else if env.openOk = false then some (stats, Outcome.openFailed)
  else
    match env.readResult with
    | none => some (stats, Outcome.readFailed)
    | some b =>
      match mergeLoop stats (split '\n' b) false with
      | none => none
      | some (data, closed) =>
        if closed = true ∨ env.writeOk = false then some (stats, Outcome.writeFailed)
        else some ([], Outcome.written (join '\n' data))

/-- Go `strings.ReplaceAll(s, old, repl)` for a one-character `old`: every
occurrence of `old` is replaced by `repl`, the other characters are kept. -/
def replaceAll (old : Char) (repl : GoString) : GoString → GoString
  | [] => []
  | c :: s => if c = old then repl ++ replaceAll old repl s else c :: replaceAll old repl s

/-- Line 67: `ua := strings.ReplaceAll(r.UserAgent(), ",", "")`. -/
def sanitize (userAgent : GoString) : GoString := replaceAll ',' [] userAgent

/-- The map read `v, ok := stats[k]`: `none` when the key is absent. -/
def mapGet : Stats → GoString → Option Int
  | [], _ => none
  | (k', c) :: rest, k => if k' = k then some c else mapGet rest k

/-- The map write `stats[k] = c`: the entry of `k` is replaced when there is
one, and a new entry is added otherwise. -/
def mapSet : Stats → GoString → Int → Stats
  | [], k, c => [(k, c)]
  | (k', c') :: rest, k, c => if k' = k then (k, c) :: rest else (k', c') :: mapSet rest k c

/-- Lines 68-72: `if _, ok := stats[ua]; !ok { stats[ua] = 1 } else { stats[ua]++ }`. -/
def record (stats : Stats) (ua : GoString) : Stats :=
  match mapGet stats ua with
  | none => mapSet stats ua 1
  | some c => mapSet stats ua (wrapInt (c + 1))

/-- Lines 64-73 of the request handler.  The classifier `agents.IsCrawler` belongs
to an external package and is a parameter. -/
def countRequest (isCrawler : GoString → Bool) (stats : Stats) (userAgent : GoString) : Stats :=
  if isCrawler userAgent = false then record stats (sanitize userAgent) else stats

/-- The fields of a `time.Time` in its location, as returned by `Year()`,
`Month()`, `Day()` and the clock.  A month delivered by `time.Now()` lies in
`1..12`. -/
structure Timestamp where
  year : Int
  month : Nat
  day : Int
  hour : Nat
  minute : Nat
  second : Nat
  deriving DecidableEq, Repr

/-- The table `longMonthNames` of package `time`. -/
def longMonthNames : List GoString :=
  ["January".toList, "February".toList, "March".toList, "April".toList, "May".toList,
   "June".toList, "July".toList, "August".toList, "September".toList, "October".toList,
   "November".toList, "December".toList]

/-- The method `time.Month.String`, which `fmt.Sprint` calls on a `time.Month`:
the English name of a month in `1..12`, and `%!Month(n)` for any other value. -/
def monthString (m : Nat) : GoString :=
  if 1 ≤ m ∧ m ≤ 12 then (longMonthNames[m - 1]?).getD []
  else "%!Month(".toList ++ formatNat m ++ [')']

/-- One path element handled by `filepath.Clean` (Unix separator).  `stack` is
the list of elements kept so far, the last one first.  Empty elements and `.`
are dropped; `..` removes the last kept element when it is not itself `..`,
is kept in a path that is not rooted, and is dropped at the root. -/
def cleanStep (rooted : Bool) (stack : List GoString) (elem : GoString) : List GoString :=
  if elem = [] then stack
  else if elem = ['.'] then stack
  else if elem = ['.', '.'] then
    match stack with
    | [] => if rooted then [] else [elem]
    | top :: below =>
      if top = ['.', '.'] then (if rooted then top :: below else elem :: top :: below)
      else below
  else elem :: stack

/-- The elements `filepath.Clean` keeps, the last one first. -/
def cleanStack (path : GoString) : List GoString :=
  (split '/' path).foldl (cleanStep (path.head? = some '/')) []

/-- The path `filepath.Clean` builds from the kept elements: `/` in front of a
rooted path, the elements joined by `/`, and `.` for an empty result. -/
def renderPath (rooted : Bool) (stack : List GoString) : GoString :=
  match stack with
  | [] => if rooted then ['/'] else ['.']
  | _ :: _ => if rooted then '/' :: join '/' stack.reverse else join '/' stack.reverse

/-- Go `filepath.Clean` on a Unix path: the shortest path equivalent to `path`
by purely lexical processing. -/
def clean (path : GoString) : GoString :=
  if path = [] then ['.'] else renderPath (path.head? = some '/') (cleanStack path)

/-- Go `filepath.Join` on Unix: the elements from the first non-empty one on are
joined with `/` and the result is cleaned; the empty string when all are empty. -/
def filepathJoin : List GoString → GoString
  | [] => []
  | e :: rest => if e = [] then filepathJoin rest else clean (join '/' (e :: rest))

/-- A path element that `filepath.Clean` keeps as it is: not empty, not `.`,
not `..`. -/
def Ordinary (e : GoString) : Prop := e ≠ [] ∧ e ≠ ['.'] ∧ e ≠ ['.', '.']

/-- The shape of the elements kept by `filepath.Clean`, the last one first:
ordinary elements above a run of `..`, the run being empty in a rooted path. -/
def StackOk (rooted : Bool) (stack : List GoString) : Prop :=
  ∃ (ords : List GoString) (n : Nat),
    stack = ords ++ List.replicate n ['.', '.']
      ∧ (∀ e ∈ ords, Ordinary e ∧ '/' ∉ e) ∧ (rooted = true → n = 0)

/-- Line 146: `filepath.Join(fileDir, fmt.Sprint(Year()), fmt.Sprint(Month()))`. -/
def partitionDir (fileDir : GoString) (t : Timestamp) : GoString :=
  filepathJoin [fileDir, formatInt t.year, monthString t.month]

/-- Line 153: `filepath.Join(dir, fmt.Sprint(Day())+".csv")`. -/
def partitionFile (fileDir : GoString) (t : Timestamp) : GoString :=
  filepathJoin [partitionDir fileDir t, formatInt t.day ++ ".csv".toList]

/-- The process environment: the variables that are set, with their values. -/
abbrev Environ := List (GoString × GoString)

/-- Go `os.Getenv`: the value of the variable, the empty string when it is not
set. -/
def osGetenv : Environ → GoString → GoString
  | [], _ => []
  | (k, v) :: rest, key => if k = key then v else osGetenv rest key

/-- The function `getEnv` of lines 26-32. -/
def getEnv (environ : Environ) (key fallback : GoString) : GoString :=
  let value := osGetenv environ key
  if value = [] then fallback else value

/-- The part of the filesystem the flush touches: the directories that exist and
the regular files with their content. -/
structure Disk where
  dirs : List GoString
  files : List (GoString × GoString)
  deriving DecidableEq, Repr

/-- Content of the file at `path`, `none` when there is no such file. -/
def Disk.read (d : Disk) (path : GoString) : Option GoString :=
  (d.files.find? (fun e => e.1 = path)).map Prod.snd

/-- Content `content` put at `path`, in place of the former content if any. -/
def Disk.store (d : Disk) (path content : GoString) : Disk :=
  { d with files := (path, content) :: d.files.filter (fun e => ¬ e.1 = path) }

/-- The paths of the directories on the way down a path whose elements are
given, the outermost first: `a`, `a/b`, `a/b/c` for the elements `a`, `b`, `c`.
`passed` holds the elements already gone through. -/
def ancestorsFrom (passed : List GoString) : List GoString → List GoString
  | [] => []
  | e :: rest => join '/' (passed ++ [e]) :: ancestorsFrom (passed ++ [e]) rest

/-- A successful `os.MkdirAll(dir, 0o777)`: the directory and every directory
above it exist afterwards; those that are missing are created, the outermost
first. -/
def Disk.mkdirAll (d : Disk) (dir : GoString) : Disk :=
  ((ancestorsFrom [] (split '/' dir)).filter (fun p => ¬ p = [])).foldl
    (fun acc p => if p ∈ acc.dirs then acc else { acc with dirs := p :: acc.dirs }) d

/-- An open `*os.File`: the content of the file and the position of the next
read or write. -/
structure FileState where
  content : GoString
  offset : Nat
  deriving DecidableEq, Repr

/-- A successful `io.ReadAll(file)`: everything from the current position to the
end, the position moving to the end. -/
def fileReadAll (f : FileState) : GoString × FileState :=
  (f.content.drop f.offset, { f with offset := max f.offset f.content.length })

/-- A successful `file.Truncate(size)`: the content is cut, or padded with NUL,
to `size`; the position does not move. -/
def fileTruncate (f : FileState) (size : Nat) : FileState :=
  { f with content := f.content.take size
      ++ List.replicate (size - f.content.length) (Char.ofNat 0) }

/-- A successful `file.Seek(off, 0)`: the position is set from the start. -/
def fileSeek (f : FileState) (off : Nat) : FileState :=
  { f with offset := off }

/-- A successful `file.Write(b)`: `b` is stored at the current position, over
what was there, after a gap of NUL when the position lies beyond the end. -/
def fileWrite (f : FileState) (b : GoString) : FileState :=
  { content := f.content.take f.offset
      ++ List.replicate (f.offset - f.content.length) (Char.ofNat 0)
      ++ b ++ f.content.drop (f.offset + b.length),
    offset := f.offset + b.length }

/-- Whether each filesystem call of one tick succeeds, for the calls made on a
file that is open: `os.MkdirAll`, `os.OpenFile`, `io.ReadAll`, `file.Truncate`,
`file.Seek`, `file.Write`. -/
structure FsAnswers where
  mkdirOk : Bool
  openOk : Bool
  readOk : Bool
  truncateOk : Bool
  seekOk : Bool
  writeOk : Bool
  deriving DecidableEq, Repr

/-- A filesystem call made by the flush. -/
inductive FsCall
  | mkdirAll (dir : GoString)
  | openFile (name : GoString)
  | readAll
  | truncate
  | seek
  | write (b : GoString)
  | close
  deriving DecidableEq, Repr

/-- What one iteration of the loop leaves behind: the counter, how the iteration
ended, the filesystem, and the filesystem calls it made, in order. -/
structure CycleResult where
  stats : Stats
  outcome : Outcome
  disk : Disk
  calls : List FsCall
  deriving DecidableEq, Repr

/-- One iteration of the loop `for range ticker.C` (lines 138-204) on a
filesystem, at local time `now`; `none` is a panic in the merge loop.

* `os.OpenFile` with `O_CREATE|O_RDWR` creates a missing file, empty;
* the results of `file.Truncate(0)` and `file.Seek(0, 0)` are not looked at
  (lines 191-192);
* when the merge loop has closed the file (line 179), `Truncate`, `Seek` and
  `Write` all fail and the content stays as it was;
* a failing `os.MkdirAll` or `file.Write` is taken to change nothing. -/
def flushCycle (ans : FsAnswers) (fileDir : GoString) (now : Timestamp) (disk : Disk)
    (stats : Stats) : Option CycleResult :=
  if stats.length = 0 then some ⟨stats, Outcome.idle, disk, []⟩
  else
    let dir := partitionDir fileDir now
    if ans.mkdirOk = false then
      some ⟨stats, Outcome.mkdirFailed, disk, [FsCall.mkdirAll dir]⟩
    else
      let disk1 := disk.mkdirAll dir
      let filename := filepathJoin [dir, formatInt now.day ++ ".csv".toList]
      if ans.openOk = false then
        some ⟨stats, Outcome.openFailed, disk1, [FsCall.mkdirAll dir, FsCall.openFile filename]⟩
      else
        let file0 : FileState := ⟨(disk1.read filename).getD [], 0⟩
        let disk2 := disk1.store filename file0.content
        if ans.readOk = false then
          some ⟨stats, Outcome.readFailed, disk2,
            [FsCall.mkdirAll dir, FsCall.openFile filename, FsCall.readAll, FsCall.close]⟩
        else
          let b := (fileReadAll file0).1
          let file1 := (fileReadAll file0).2
          match mergeLoop stats (split '\n' b) false with
          | none => none
          | some (data, closed) =>
            if closed = true then
              some ⟨stats, Outcome.writeFailed, disk2,
                [FsCall.mkdirAll dir, FsCall.openFile filename, FsCall.readAll, FsCall.close,
                 FsCall.truncate, FsCall.seek, FsCall.write (join '\n' data), FsCall.close]⟩
            else
              let file2 := if ans.truncateOk = true then fileTruncate file1 0 else file1
              let file3 := if ans.seekOk = true then fileSeek file2 0 else file2
              if ans.writeOk = false then
                some ⟨stats, Outcome.writeFailed, disk2.store filename file3.content,
                  [FsCall.mkdirAll dir, FsCall.openFile filename, FsCall.readAll,
                   FsCall.truncate, FsCall.seek, FsCall.write (join '\n' data), FsCall.close]⟩
              else
                some ⟨[], Outcome.written (join '\n' data),
                  disk2.store filename (fileWrite file3 (join '\n' data)).content,
                  [FsCall.mkdirAll dir, FsCall.openFile filename, FsCall.readAll,
                   FsCall.truncate, FsCall.seek, FsCall.write (join '\n' data), FsCall.close]⟩

/-- One delivery of the ticker: the local time, the answers of the filesystem,
and the user agents of the requests the handler has counted since the previous
delivery. -/
structure Tick where
  now : Timestamp
  answers : FsAnswers
  arrivals : List GoString
  deriving DecidableEq, Repr

/-- How `writeStatsToFile` stands after the deliveries considered: returned `nil`
(line 133), returned the error of `os.MkdirAll` (line 151), still waiting for
the next delivery of the ticker, or stopped by a panic. -/
inductive LoopEnd
  | returnedNil
  | returnedErr
  | waiting
  | panicked
  deriving DecidableEq, Repr

/-- The counter and the filesystem. -/
structure World where
  stats : Stats
  disk : Disk
  deriving DecidableEq, Repr

/-- Result of running the loop: the world reached, the outcome of every
iteration made, and how the function stands. -/
structure LoopResult where
  world : World
  outcomes : List Outcome
  ended : LoopEnd
  deriving DecidableEq, Repr

/-- The filesystem as it stands when the merge loop starts: the directories
made (line 149) and the partition file created, empty, if it was missing
(line 155). -/
def diskAtMerge (fileDir : GoString) (now : Timestamp) (disk : Disk) : Disk :=
  (disk.mkdirAll (partitionDir fileDir now)).store (partitionFile fileDir now)
    (((disk.mkdirAll (partitionDir fileDir now)).read (partitionFile fileDir now)).getD [])

/-- The loop `for range ticker.C` of lines 138-204 over the given deliveries.
Before each delivery the handler records the arrivals (lines 67-72).  A failing
`os.MkdirAll` returns from the function (line 151); every other outcome goes on
to the next delivery.  A panic in the merge loop stops everything, with the
filesystem as the merge loop found it. -/
def flushLoop (fileDir : GoString) : List Tick → World → LoopResult
  | [], w => ⟨w, [], LoopEnd.waiting⟩
  | t :: ts, w =>
    let stats := t.arrivals.foldl (fun s ua => record s (sanitize ua)) w.stats
    match flushCycle t.answers fileDir t.now w.disk stats with
    | none => ⟨⟨stats, diskAtMerge fileDir t.now w.disk⟩, [], LoopEnd.panicked⟩
    | some r =>
      if r.outcome = Outcome.mkdirFailed then ⟨⟨r.stats, r.disk⟩, [r.outcome], LoopEnd.returnedErr⟩
      else
        let rest := flushLoop fileDir ts ⟨r.stats, r.disk⟩
        ⟨rest.world, r.outcome :: rest.outcomes, rest.ended⟩

/-- The body of `writeStatsToFile` from line 132 on, for the root `fileDir` that
line 131 obtained. -/
def writeStatsToFileFrom (fileDir : GoString) (ticks : List Tick) (w : World) : LoopResult :=
  if fileDir = [] then ⟨w, [], LoopEnd.returnedNil⟩ else flushLoop fileDir ticks w

/-- The function `writeStatsToFile` of lines 130-207 in the process environment
`environ`: line 131 is `getEnv("LOG_FILE_DIR", "./logs/helprob")`. -/
def writeStatsToFile (environ : Environ) (ticks : List Tick) (w : World) : LoopResult :=
  writeStatsToFileFrom (getEnv environ "LOG_FILE_DIR".toList "./logs/helprob".toList) ticks w

/-- An operation on the counter: the handler records one observation of a key
(lines 68-72), or a successful flush assigns the empty map (line 202). -/
inductive CounterOp
  | record (k : GoString)
  | reset
  deriving DecidableEq, Repr

/-- Effect of one operation on the counter. -/
def applyOp (stats : Stats) : CounterOp → Stats
  | CounterOp.record k => record stats k
  | CounterOp.reset => []

/-- Effect of a sequence of operations, the first one applied first. -/
def runOps (ops : List CounterOp) (stats : Stats) : Stats :=
  ops.foldl applyOp stats

/-- Sum of the counts held by the counter. -/
def totalCount (stats : Stats) : Int :=
  (stats.map Prod.snd).sum

/-- Every count lies between 1 and `n`. -/
def CountsWithin (n : Int) (stats : Stats) : Prop :=
  ∀ e ∈ stats, 1 ≤ e.2 ∧ e.2 ≤ n

/-- The counter after the handler has counted the requests with the given user
agents, in order (lines 67-72 for each). -/
def recordAll (uas : List GoString) (stats : Stats) : Stats :=
  uas.foldl (fun s ua => record s (sanitize ua)) stats

/-- Where the flush goroutine stands within one iteration of its loop, between
two accesses to the counter. -/
inductive FlushPc
  /-- The ticker has delivered; the test `len(stats) == 0` of line 139 is next. -/
  | beforeTest
  /-- The test found entries; lines 144-199 are next. -/
  | beforeMerge
  /-- `file.Write` has succeeded with this content; line 202 is next. -/
  | beforeReset (content : GoString)
  /-- The iteration is over with this outcome. -/
  | finished (outcome : Outcome)
  /-- The merge loop has panicked. -/
  | crashed
  deriving DecidableEq, Repr

/-- What happens next in the process: a handler goroutine counts a request
(lines 67-72), or the flush goroutine runs up to its next access to the
counter. -/
inductive Event
  | request (ua : GoString)
  | flush
  deriving DecidableEq, Repr

/-- The counter, the filesystem and the position of the flush goroutine. -/
structure Running where
  stats : Stats
  disk : Disk
  pc : FlushPc
  deriving DecidableEq, Repr

/-- One event of an iteration of the flush loop run next to the handler.  No lock
or channel orders the two goroutines, so a request may be counted between any
two accesses of the flush goroutine to the map: the test of line 139, the merge
loop of lines 171-189 and the assignment of line 202.  Lines 144-199 are run by
`flushCycle` on the counter as it stands when the merge loop reads it; the
filesystem calls around the merge loop do not touch the counter, so their place
among the requests does not matter. -/
def stepEvent (ans : FsAnswers) (fileDir : GoString) (now : Timestamp) (s : Running) :
    Event → Running
  | Event.request ua =>
    match s.pc with
    | FlushPc.crashed => s
    | _ => { s with stats := record s.stats (sanitize ua) }
  | Event.flush =>
    match s.pc with
    | FlushPc.beforeTest =>
      if s.stats.length = 0 then { s with pc := FlushPc.finished Outcome.idle }
      else { s with pc := FlushPc.beforeMerge }
    | FlushPc.beforeMerge =>
      match flushCycle ans fileDir now s.disk s.stats with
      | none => { s with disk := diskAtMerge fileDir now s.disk, pc := FlushPc.crashed }
      | some r =>
        match r.outcome with
        | Outcome.written content => { s with disk := r.disk, pc := FlushPc.beforeReset content }
        | o => { s with disk := r.disk, pc := FlushPc.finished o }
    | FlushPc.beforeReset content =>
      { s with stats := [], pc := FlushPc.finished (Outcome.written content) }
    | FlushPc.finished _ => s
    | FlushPc.crashed => s

/-- The events of a schedule, one after the other. -/
def runEvents (ans : FsAnswers) (fileDir : GoString) (now : Timestamp)
    (events : List Event) (s : Running) : Running :=
  events.foldl (stepEvent ans fileDir now) s

/-- The table `names` of lines 292-1293, in the order of the source. -/
def names : List GoString :=
  [
   "Jacob".toList, "Mason".toList, "William".toList, "Jayden".toList, "Noah".toList, "Michael".toList,
   "Ethan".toList, "Alexander".toList, "Aiden".toList, "Daniel".toList, "Anthony".toList, "Matthew".toList,
   "Elijah".toList, "Joshua".toList, "Liam".toList, "Andrew".toList, "James".toList, "David".toList,
   "Benjamin".toList, "Christopher".toList, "Logan".toList, "Joseph".toList, "Jackson".toList, "Gabriel".toList,
   "Ryan".toList, "Samuel".toList, "John".toList, "Nathan".toList, "Lucas".toList, "Christian".toList,
   "Jonathan".toList, "Caleb".toList, "Dylan".toList, "Landon".toList, "Isaac".toList, "Brayden".toList,
   "Gavin".toList, "Tyler".toList, "Luke".toList, "Evan".toList, "Carter".toList, "Nicholas".toList,
   "Isaiah".toList, "Owen".toList, "Jack".toList, "Jordan".toList, "Brandon".toList, "Wyatt".toList,
   "Julian".toList, "Jeremiah".toList, "Aaron".toList, "Angel".toList, "Cameron".toList, "Connor".toList,
   "Hunter".toList, "Adrian".toList, "Henry".toList, "Eli".toList, "Justin".toList, "Austin".toList,
   "Charles".toList, "Robert".toList, "Thomas".toList, "Zachary".toList, "Jose".toList, "Levi".toList,
   "Kevin".toList, "Sebastian".toList, "Chase".toList, "Ayden".toList, "Jason".toList, "Ian".toList,
   "Blake".toList, "Colton".toList, "Bentley".toList, "Xavier".toList, "Dominic".toList, "Oliver".toList,
   "Parker".toList, "Josiah".toList, "Adam".toList, "Cooper".toList, "Brody".toList, "Nathaniel".toList,
   "Carson".toList, "Jaxon".toList, "Tristan".toList, "Luis".toList, "Juan".toList, "Hayden".toList,
   "Carlos".toList, "Nolan".toList, "Jesus".toList, "Cole".toList, "Alex".toList, "Max".toList,
   "Bryson".toList, "Grayson".toList, "Diego".toList, "Jaden".toList, "Vincent".toList, "Micah".toList,
   "Easton".toList, "Eric".toList, "Kayden".toList, "Jace".toList, "Aidan".toList, "Ryder".toList,
   "Ashton".toList, "Bryan".toList, "Riley".toList, "Hudson".toList, "Asher".toList, "Bryce".toList,
   "Miles".toList, "Kaleb".toList, "Giovanni".toList, "Antonio".toList, "Kaden".toList, "Kyle".toList,
   "Colin".toList, "Brian".toList, "Timothy".toList, "Steven".toList, "Sean".toList, "Miguel".toList,
   "Richard".toList, "Ivan".toList, "Jake".toList, "Alejandro".toList, "Santiago".toList, "Joel".toList,
   "Maxwell".toList, "Caden".toList, "Brady".toList, "Axel".toList, "Preston".toList, "Damian".toList,
   "Elias".toList, "Jesse".toList, "Jaxson".toList, "Victor".toList, "Jonah".toList, "Patrick".toList,
   "Marcus".toList, "Rylan".toList, "Emmanuel".toList, "Edward".toList, "Leonardo".toList, "Cayden".toList,
   "Grant".toList, "Jeremy".toList, "Braxton".toList, "Gage".toList, "Jude".toList, "Wesley".toList,
   "Devin".toList, "Roman".toList, "Mark".toList, "Camden".toList, "Kaiden".toList, "Oscar".toList,
   "Malachi".toList, "Alan".toList, "George".toList, "Peyton".toList, "Leo".toList, "Nicolas".toList,
   "Maddox".toList, "Kenneth".toList, "Mateo".toList, "Sawyer".toList, "Cody".toList, "Collin".toList,
   "Conner".toList, "Declan".toList, "Andres".toList, "Bradley".toList, "Lincoln".toList, "Trevor".toList,
   "Derek".toList, "Tanner".toList, "Silas".toList, "Seth".toList, "Eduardo".toList, "Paul".toList,
   "Jaiden".toList, "Jorge".toList, "Cristian".toList, "Travis".toList, "Garrett".toList, "Abraham".toList,
   "Omar".toList, "Javier".toList, "Ezekiel".toList, "Tucker".toList, "Peter".toList, "Damien".toList,
   "Harrison".toList, "Greyson".toList, "Avery".toList, "Kai".toList, "Ezra".toList, "Weston".toList,
   "Xander".toList, "Jaylen".toList, "Corbin".toList, "Calvin".toList, "Fernando".toList, "Jameson".toList,
   "Francisco".toList, "Maximus".toList, "Shane".toList, "Josue".toList, "Chance".toList, "Ricardo".toList,
   "Trenton".toList, "Israel".toList, "Cesar".toList, "Emmett".toList, "Zane".toList, "Drake".toList,
   "Jayce".toList, "Mario".toList, "Landen".toList, "Spencer".toList, "Griffin".toList, "Kingston".toList,
   "Stephen".toList, "Theodore".toList, "Manuel".toList, "Erick".toList, "Braylon".toList, "Raymond".toList,
   "Edwin".toList, "Charlie".toList, "Myles".toList, "Abel".toList, "Johnathan".toList, "Andre".toList,
   "Bennett".toList, "Alexis".toList, "Edgar".toList, "Troy".toList, "Zion".toList, "Jeffrey".toList,
   "Shawn".toList, "Hector".toList, "Lukas".toList, "Amir".toList, "Tyson".toList, "Keegan".toList,
   "Kyler".toList, "Donovan".toList, "Simon".toList, "Graham".toList, "Clayton".toList, "Everett".toList,
   "Braden".toList, "Luca".toList, "Emanuel".toList, "Martin".toList, "Brendan".toList, "Cash".toList,
   "Zander".toList, "Dante".toList, "Jared".toList, "Dominick".toList, "Kameron".toList, "Lane".toList,
   "Ryker".toList, "Elliot".toList, "Paxton".toList, "Rafael".toList, "Andy".toList, "Dalton".toList,
   "Erik".toList, "Gregory".toList, "Sergio".toList, "Marco".toList, "Jasper".toList, "Johnny".toList,
   "Emiliano".toList, "Dean".toList, "Drew".toList, "Judah".toList, "Caiden".toList, "Skyler".toList,
   "Aden".toList, "Maximiliano".toList, "Fabian".toList, "Zayden".toList, "Brennan".toList, "Anderson".toList,
   "Roberto".toList, "Quinn".toList, "Reid".toList, "Angelo".toList, "Holden".toList, "Cruz".toList,
   "Derrick".toList, "Emilio".toList, "Finn".toList, "Grady".toList, "Elliott".toList, "Amari".toList,
   "Pedro".toList, "Frank".toList, "Rowan".toList, "Felix".toList, "Lorenzo".toList, "Dakota".toList,
   "Corey".toList, "Colby".toList, "Dawson".toList, "Braylen".toList, "Allen".toList, "Brycen".toList,
   "Ty".toList, "Brantley".toList, "Jax".toList, "Malik".toList, "Ruben".toList, "Trey".toList,
   "Brock".toList, "Dallas".toList, "Colt".toList, "Joaquin".toList, "Leland".toList, "Beckett".toList,
   "Jett".toList, "Louis".toList, "Gunner".toList, "Jakob".toList, "Adan".toList, "Taylor".toList,
   "Cohen".toList, "Marshall".toList, "Arthur".toList, "Marcos".toList, "Ronald".toList, "Julius".toList,
   "Armando".toList, "Kellen".toList, "Brooks".toList, "Dillon".toList, "Cade".toList, "Nehemiah".toList,
   "Danny".toList, "Devon".toList, "Jayson".toList, "Beau".toList, "Tristen".toList, "Enrique".toList,
   "Desmond".toList, "Randy".toList, "Pablo".toList, "Milo".toList, "Gerardo".toList, "Raul".toList,
   "Romeo".toList, "Titus".toList, "Kellan".toList, "Julio".toList, "Keaton".toList, "Karson".toList,
   "Reed".toList, "Keith".toList, "Dustin".toList, "Scott".toList, "Braydon".toList, "Ali".toList,
   "Waylon".toList, "Trent".toList, "Walter".toList, "Ismael".toList, "Donald".toList, "Phillip".toList,
   "Iker".toList, "Darius".toList, "Jaime".toList, "Esteban".toList, "Landyn".toList, "Dexter".toList,
   "Matteo".toList, "Colten".toList, "Emerson".toList, "Phoenix".toList, "King".toList, "Izaiah".toList,
   "Karter".toList, "Albert".toList, "Tate".toList, "Jerry".toList, "August".toList, "Payton".toList,
   "Jay".toList, "Larry".toList, "Saul".toList, "Rocco".toList, "Jalen".toList, "Russell".toList,
   "Enzo".toList, "Kolton".toList, "Quentin".toList, "Leon".toList, "Philip".toList, "Mathew".toList,
   "Tony".toList, "Gael".toList, "Gideon".toList, "Kade".toList, "Dennis".toList, "Damon".toList,
   "Darren".toList, "Kason".toList, "Walker".toList, "Jimmy".toList, "Mitchell".toList, "Alberto".toList,
   "Alec".toList, "Rodrigo".toList, "Casey".toList, "River".toList, "Issac".toList, "Amare".toList,
   "Maverick".toList, "Brayan".toList, "Mohamed".toList, "Yahir".toList, "Arturo".toList, "Moises".toList,
   "Knox".toList, "Maximilian".toList, "Davis".toList, "Barrett".toList, "Gustavo".toList, "Curtis".toList,
   "Hugo".toList, "Reece".toList, "Chandler".toList, "Jamari".toList, "Abram".toList, "Mauricio".toList,
   "Solomon".toList, "Archer".toList, "Kamden".toList, "Uriel".toList, "Bryant".toList, "Porter".toList,
   "Zackary".toList, "Ryland".toList, "Lawrence".toList, "Adriel".toList, "Ricky".toList, "Noel".toList,
   "Ronan".toList, "Alijah".toList, "Chris".toList, "Leonel".toList, "Khalil".toList, "Zachariah".toList,
   "Brenden".toList, "Maurice".toList, "Atticus".toList, "Marvin".toList, "Ibrahim".toList, "Lance".toList,
   "Bruce".toList, "Dane".toList, "Orion".toList, "Cullen".toList, "Pierce".toList, "Kieran".toList,
   "Nikolas".toList, "Braeden".toList, "Remington".toList, "Kobe".toList, "Prince".toList, "Finnegan".toList,
   "Muhammad".toList, "Orlando".toList, "Sam".toList, "Mekhi".toList, "Alfredo".toList, "Jacoby".toList,
   "Rhys".toList, "Eddie".toList, "Jonas".toList, "Joe".toList, "Zaiden".toList, "Kristopher".toList,
   "Ernesto".toList, "Nico".toList, "Gary".toList, "Jamison".toList, "Malcolm".toList, "Warren".toList,
   "Armani".toList, "Franklin".toList, "Gunnar".toList, "Johan".toList, "Giovani".toList, "Ramon".toList,
   "Byron".toList, "Cason".toList, "Kane".toList, "Ari".toList, "Brett".toList, "Deandre".toList,
   "Finley".toList, "Cyrus".toList, "Justice".toList, "Moses".toList, "Douglas".toList, "Talon".toList,
   "Gianni".toList, "Camron".toList, "Cannon".toList, "Kendrick".toList, "Nash".toList, "Dorian".toList,
   "Sullivan".toList, "Arjun".toList, "Kasen".toList, "Dominik".toList, "Skylar".toList, "Korbin".toList,
   "Quinton".toList, "Royce".toList, "Ahmed".toList, "Raiden".toList, "Roger".toList, "Salvador".toList,
   "Terry".toList, "Tobias".toList, "Brodie".toList, "Isaias".toList, "Morgan".toList, "Conor".toList,
   "Frederick".toList, "Moshe".toList, "Reese".toList, "Madden".toList, "Braiden".toList, "Kelvin".toList,
   "Asa".toList, "Alvin".toList, "Julien".toList, "Nickolas".toList, "Kristian".toList, "Wade".toList,
   "Rodney".toList, "Xzavier".toList, "Davion".toList, "Boston".toList, "Nelson".toList, "Alonzo".toList,
   "Ezequiel".toList, "Nasir".toList, "Jase".toList, "London".toList, "Jermaine".toList, "Rhett".toList,
   "Mohammed".toList, "Roy".toList, "Matias".toList, "Keagan".toList, "Blaine".toList, "Chad".toList,
   "Ace".toList, "Marc".toList, "Trace".toList, "Aarav".toList, "Bently".toList, "Rohan".toList,
   "Aldo".toList, "Uriah".toList, "Nathanael".toList, "Demetrius".toList, "Kamari".toList, "Lawson".toList,
   "Layne".toList, "Carmelo".toList, "Jamarion".toList, "Shaun".toList, "Terrance".toList, "Ahmad".toList,
   "Carl".toList, "Kale".toList, "Micheal".toList, "Callen".toList, "Jaydon".toList, "Noe".toList,
   "Jaxen".toList, "Lucian".toList, "Jaxton".toList, "Quincy".toList, "Rory".toList, "Javon".toList,
   "Kendall".toList, "Wilson".toList, "Guillermo".toList, "Jeffery".toList, "Kian".toList, "Joey".toList,
   "Harper".toList, "Jensen".toList, "Mohammad".toList, "Billy".toList, "Jonathon".toList, "Dayton".toList,
   "Jadiel".toList, "Willie".toList, "Jadon".toList, "Francis".toList, "Melvin".toList, "Rex".toList,
   "Clark".toList, "Malakai".toList, "Terrell".toList, "Kash".toList, "Ariel".toList, "Cristopher".toList,
   "Layton".toList, "Sylas".toList, "Semaj".toList, "Gerald".toList, "Lewis".toList, "Aron".toList,
   "Kody".toList, "Tomas".toList, "Triston".toList, "Messiah".toList, "Bentlee".toList, "Tommy".toList,
   "Harley".toList, "Marlon".toList, "Isiah".toList, "Nikolai".toList, "Sincere".toList, "Aidyn".toList,
   "Alessandro".toList, "Luciano".toList, "Omari".toList, "Terrence".toList, "Jagger".toList, "Kylan".toList,
   "Rene".toList, "Cory".toList, "Beckham".toList, "Urijah".toList, "Reginald".toList, "Aydin".toList,
   "Deacon".toList, "Felipe".toList, "Neil".toList, "Santino".toList, "Tristian".toList, "Daxton".toList,
   "Jordyn".toList, "Ulises".toList, "Will".toList, "Giovanny".toList, "Kayson".toList, "Osvaldo".toList,
   "Raphael".toList, "Makai".toList, "Kole".toList, "Lee".toList, "Case".toList, "Channing".toList,
   "Tripp".toList, "Allan".toList, "Jamal".toList, "Jorden".toList, "Stanley".toList, "Alonso".toList,
   "Soren".toList, "Jon".toList, "Ray".toList, "Aydan".toList, "Bobby".toList, "Jasiah".toList,
   "Markus".toList, "Ben".toList, "Camren".toList, "Davin".toList, "Aryan".toList, "Darrell".toList,
   "Branden".toList, "Hank".toList, "Adonis".toList, "Mathias".toList, "Darian".toList, "Marquis".toList,
   "Jessie".toList, "Raylan".toList, "Vicente".toList, "Zayne".toList, "Kenny".toList, "Wayne".toList,
   "Leonard".toList, "Jefferson".toList, "Kolby".toList, "Harry".toList, "Steve".toList, "Zechariah".toList,
   "Adrien".toList, "Ayaan".toList, "Dax".toList, "Emery".toList, "Dwayne".toList, "Rashad".toList,
   "Ronnie".toList, "Yusuf".toList, "Samir".toList, "Clay".toList, "Memphis".toList, "Odin".toList,
   "Tristin".toList, "Bowen".toList, "Benson".toList, "Lamar".toList, "Tatum".toList, "Javion".toList,
   "Maxim".toList, "Ellis".toList, "Alexzander".toList, "Elisha".toList, "Draven".toList, "Rudy".toList,
   "Branson".toList, "Rayan".toList, "Rylee".toList, "Zain".toList, "Brendon".toList, "Deshawn".toList,
   "Sterling".toList, "Brennen".toList, "Crosby".toList, "Jerome".toList, "Kareem".toList, "Kyson".toList,
   "Winston".toList, "Jairo".toList, "Lennon".toList, "Luka".toList, "Niko".toList, "Roland".toList,
   "Zavier".toList, "Yosef".toList, "Cedric".toList, "Kymani".toList, "Vance".toList, "Chaim".toList,
   "Killian".toList, "Trevon".toList, "Gauge".toList, "Kaeden".toList, "Vincenzo".toList, "Teagan".toList,
   "Abdullah".toList, "Bo".toList, "Hamza".toList, "Kolten".toList, "Valentino".toList, "Augustus".toList,
   "Edison".toList, "Gavyn".toList, "Jovani".toList, "Matthias".toList, "Darwin".toList, "Jamir".toList,
   "Jaylin".toList, "Toby".toList, "Davian".toList, "Hayes".toList, "Rogelio".toList, "Damion".toList,
   "Brent".toList, "Brogan".toList, "Landry".toList, "Junior".toList, "Emmitt".toList, "Kamron".toList,
   "Bronson".toList, "Misael".toList, "Van".toList, "Casen".toList, "Lionel".toList, "Conrad".toList,
   "Giancarlo".toList, "Yandel".toList, "Alfonso".toList, "Jamie".toList, "Deangelo".toList, "Rolando".toList,
   "Aaden".toList, "Abdiel".toList, "Duncan".toList, "Ishaan".toList, "Ronin".toList, "Maximo".toList,
   "Cael".toList, "Craig".toList, "Ean".toList, "Tyrone".toList, "Xavi".toList, "Chace".toList,
   "Dominique".toList, "Quintin".toList, "Mayson".toList, "Zachery".toList, "Bradyn".toList, "Derick".toList,
   "Izayah".toList, "Westin".toList, "Alvaro".toList, "Blaze".toList, "Johnathon".toList, "Konner".toList,
   "Lennox".toList, "Ramiro".toList, "Keenan".toList, "Marcelo".toList, "Eden".toList, "Eugene".toList,
   "Rayden".toList, "Bruno".toList, "Sage".toList, "Jamar".toList, "Cale".toList, "Camryn".toList,
   "Deegan".toList, "Rodolfo".toList, "Seamus".toList, "Damarion".toList, "Leandro".toList, "Harold".toList,
   "Marcel".toList, "Jaeden".toList, "Jovanni".toList, "Konnor".toList, "Cain".toList, "Callum".toList,
   "Ernest".toList, "Rowen".toList, "Jair".toList, "Justus".toList, "Rylen".toList, "Heath".toList,
   "Randall".toList, "Arnav".toList, "Fisher".toList, "Gilberto".toList, "Irvin".toList, "Harvey".toList,
   "Amos".toList, "Frankie".toList, "Lyric".toList, "Kamryn".toList, "Theo".toList, "Alden".toList,
   "Masen".toList, "Todd".toList, "Hassan".toList, "Samson".toList, "Gilbert".toList, "Salvatore".toList,
   "Darien".toList, "Hezekiah".toList, "Cassius".toList, "Krish".toList, "Jaidyn".toList, "Mike".toList,
   "Antoine".toList, "Darnell".toList, "Jedidiah".toList, "Stefan".toList, "Isai".toList, "Makhi".toList,
   "Remy".toList, "Camdyn".toList, "Dario".toList, "Callan".toList, "Kyron".toList, "Leonidas".toList,
   "Fletcher".toList, "Jerimiah".toList, "Reagan".toList, "Sonny".toList, "Deven".toList, "Sidney".toList,
   "Yadiel".toList, "Efrain".toList, "Santos".toList, "Brenton".toList, "Tyrell".toList, "Nixon".toList,
   "Vaughn".toList, "Aditya".toList, "Brysen".toList, "Elvis".toList, "Zaire".toList, "Freddy".toList,
   "Thaddeus".toList, "Demarcus".toList, "Gaige".toList, "Gibson".toList, "Jaylon".toList, "Clinton".toList,
   "Coleman".toList, "Zackery".toList, "Arlo".toList, "Braylin".toList, "Roderick".toList, "Turner".toList,
   "Alfred".toList, "Bodhi".toList, "Jabari".toList, "Agustin".toList, "Leighton".toList, "Arian".toList,
   "Miller".toList, "Quinten".toList, "Yehuda".toList, "Jakobe".toList, "Legend".toList, "Mustafa".toList,
   "Reuben".toList, "Enoch".toList, "Lathan".toList, "Ross".toList, "Blaise".toList, "Otto".toList,
   "Benton".toList, "Brice".toList, "Flynn".toList, "Rey".toList, "Vihaan".toList, "Crew".toList,
   "Graysen".toList, "Houston".toList, "Hugh".toList, "Jaycob".toList, "Johann".toList, "Maxton".toList,
   "Trystan".toList, "Darryl".toList, "Jean".toList, "Tyree".toList, "Devan".toList, "Donte".toList,
   "Mariano".toList, "Ralph".toList, "Anders".toList, "Bridger".toList, "Howard".toList, "Ignacio".toList,
   "Franco".toList, "Jaydan".toList, "Valentin".toList, "Haiden".toList, "Joziah".toList, "Zeke".toList,
   "Brecken".toList, "Eliseo".toList, "Maksim".toList, "Maxx".toList, "Tyrese".toList, "Broderick".toList,
   "Hendrix".toList, "Coen".toList, "Davon".toList, "Elian".toList, "Keon".toList, "Princeton".toList,
   "Cristiano".toList, "Jaron".toList, "Damari".toList, "Deon".toList, "Corban".toList, "Kyan".toList,
   "Malaki".toList, "Dimitri".toList, "Jaydin".toList, "Kael".toList, "Pierre".toList, "Major".toList,
   "Jeramiah".toList, "Kingsley".toList, "Kohen".toList, "Cayson".toList, "Cortez".toList, "Oakley".toList,
   "Camilo".toList, "Carlo".toList, "Dangelo".toList, "Ethen".toList
  ]

/-- Go `strings.ToLower` on one character of ASCII text: an upper-case letter
is moved to lower case, any other ASCII character is kept. -/
def toLowerChar (c : Char) : Char :=
  if 65 ≤ c.toNat ∧ c.toNat ≤ 90 then Char.ofNat (c.toNat + 32) else c

/-- The upper-case form of a lower-case ASCII letter; other characters are
kept. -/
def toUpperChar (c : Char) : Char :=
  if 97 ≤ c.toNat ∧ c.toNat ≤ 122 then Char.ofNat (c.toNat - 32) else c

/-- ASCII letters. -/
def isLetter (c : Char) : Bool :=
  decide ((65 ≤ c.toNat ∧ c.toNat ≤ 90) ∨ (97 ≤ c.toNat ∧ c.toNat ≤ 122))

/-- Go `strings.ToLower` on ASCII text. -/
def toLower (s : GoString) : GoString := s.map toLowerChar

/-- The ASCII characters that the title caser keeps inside a word without
casing them: digits and the underscore. -/
def isWordChar (c : Char) : Bool :=
  decide ((48 ≤ c.toNat ∧ c.toNat ≤ 57) ∨ c.toNat = 95)

/-- The ASCII characters that may stand in the middle of a word: apostrophe,
full stop and colon. -/
def isMidChar (c : Char) : Bool :=
  decide (c.toNat = 39 ∨ c.toNat = 46 ∨ c.toNat = 58)

/-- The caser `cases.Title(language.English)` of package `golang.org/x/text`, on
ASCII text.  The first letter after a word boundary is put in upper case and
the letters that follow, up to the next boundary, in lower case; every other
character is kept.  Digits, the underscore and a single apostrophe, full stop
or colon do not end a word; two of the latter in a row, and any other
character, do.  `atStart` tells whether the next letter is the first of its
word. -/
def titleFrom : Bool → GoString → GoString
  | _, [] => []
  | atStart, c :: s =>
    (if isLetter c = true then (if atStart = true then toUpperChar c else toLowerChar c)
      else c)
    :: titleFrom
        (if isMidChar c = true ∧ (s.head?.map isMidChar) = some true then true
          else if isLetter c = true then false
          else if isWordChar c = true ∨ isMidChar c = true then atStart
          else true)
        s

/-- The call `caser.String(currentName)` of line 81. -/
def titleCase (s : GoString) : GoString := titleFrom true s

/-- Go `fmt.Sprintf(format, arg)` with one string operand, for formats that use
the verbs `%s` and `%%` only: `%s` prints the operand, or `%!s(MISSING)` once the
operand is used up; a percent sign at the very end prints `%!(NOVERB)`; an
operand left unused is reported at the end.  `none` stands for a format with
another verb, a flag, a width or a precision, which is not modelled.
`argLeft` tells whether the operand is still unused. -/
def sprintfOne (arg : GoString) : Bool → GoString → Option GoString
  | argLeft, [] =>
    if argLeft = true then some ("%!(EXTRA string=".toList ++ arg ++ [')']) else some []
  | argLeft, c :: rest =>
    if c = '%' then
      match rest with
      | [] =>
        if argLeft = true
        then some ("%!(NOVERB)".toList ++ ("%!(EXTRA string=".toList ++ arg ++ [')']))
        else some "%!(NOVERB)".toList
      | v :: rest' =>
        if v = 's' then
          match sprintfOne arg false rest' with
          | none => none
          | some out =>
            some ((if argLeft = true then arg else "%!s(MISSING)".toList) ++ out)
        else if v = '%' then
          match sprintfOne arg argLeft rest' with
          | none => none
          | some out => some ('%' :: out)
        else none
    else
      match sprintfOne arg argLeft rest with
      | none => none
      | some out => some (c :: out)

/-- Line 84: `baseLink := "http://%s." + domain + "/"`. -/
def baseLink (domain : GoString) : GoString :=
  "http://%s.".toList ++ domain ++ ['/']

/-- Lines 99-100: the three names joined by dashes, in lower case. -/
def subdomainOf (name1 name2 name3 : GoString) : GoString :=
  toLower (join '-' [name1, name2, name3])

/-- Line 101: `link := fmt.Sprintf(baseLink, subdomain)`. -/
def linkOf (domain name1 name2 name3 : GoString) : Option GoString :=
  sprintfOne (subdomainOf name1 name2 name3) true (baseLink domain)

/-- Line 103: the three names joined by spaces. -/
def titleOf (name1 name2 name3 : GoString) : GoString :=
  join ' ' [name1, name2, name3]

/-- The expression `names[rand.Intn(len(names))]` of lines 95-97, for the index
`i` that `rand.Intn` returned. -/
def pickName (i : Nat) : GoString := names.getD i []

/-- The loop of lines 90-107 for the indices drawn in each of its rounds: the
link and the title of every round. -/
def generateLinks (domain : GoString) (picks : List (Nat × Nat × Nat)) :
    List (Option GoString × GoString) :=
  picks.map (fun p =>
    (linkOf domain (pickName p.1) (pickName p.2.1) (pickName p.2.2),
     titleOf (pickName p.1) (pickName p.2.1) (pickName p.2.2)))

/-- Lines 75-82: the name shown on the page, computed from the `Host` of the
request. -/
def currentName (host : GoString) : GoString :=
  if contains host ['.'] = true then
    titleCase (replaceAll '-' [' '] ((split '.' host).headD []))
  else "Ziggy".toList

/-- The shape of a name: one upper-case ASCII letter followed by lower-case
ASCII letters. -/
def isName : GoString → Bool
  | [] => false
  | c :: rest =>
    decide (65 ≤ c.toNat ∧ c.toNat ≤ 90)
      && rest.all (fun x => decide (97 ≤ x.toNat ∧ x.toNat ≤ 122))


/-! ## Library facts: lists of characters -/

theorem contains_eq_true_iff (s substr : GoString) : contains s substr = true ↔ substr <:+: s := by
  induction s with
  | nil =>
    simp [contains]
  | cons c s ih =>
    simp only [contains, Bool.or_eq_true, ih, List.isPrefixOf_iff_prefix]
    rw [List.infix_cons_iff]

theorem split_of_not_mem (sep : Char) (s : GoString) (h : sep ∉ s) : split sep s = [s] := by
  induction s with
  | nil => rfl
  | cons c s ih =>
    have hc : c ≠ sep := fun e => h (by simp [e])
    have hs : sep ∉ s := fun e => h (by simp [e])
    simp [split, hc, ih hs]

theorem split_append_sep (sep : Char) (a b : GoString) (h : sep ∉ a) :
    split sep (a ++ sep :: b) = a :: split sep b := by
  induction a with
  | nil => simp [split]
  | cons c a ih =>
    have hc : c ≠ sep := fun e => h (by simp [e])
    have hs : sep ∉ a := fun e => h (by simp [e])
    simp [split, hc, ih hs]

/-! ## Library facts: decimal rendering and parsing -/

theorem digitVal_digitChar (d : Nat) (h : d < 10) : digitVal (digitChar d) = some d := by
  interval_cases d <;> decide

theorem formatNatAux_eq (n : Nat) : ∀ (fuel : Nat) (acc : List Char), n < fuel →
    formatNatAux fuel n acc = formatNat n ++ acc := by
  induction n using Nat.strong_induction_on with
  | _ n ih =>
    intro fuel acc hlt
    obtain ⟨f, rfl⟩ : ∃ f, fuel = f + 1 := ⟨fuel - 1, by omega⟩
    by_cases h0 : n / 10 = 0
    · simp [formatNat, formatNatAux, h0]
    · have hlt' : n / 10 < n := by omega
      have e1 := ih (n / 10) hlt' f (digitChar (n % 10) :: acc) (by omega)
      have e2 := ih (n / 10) hlt' n [digitChar (n % 10)] hlt'
      simp only [formatNat, formatNatAux, h0, if_false] at e1 e2 ⊢
      rw [e1, e2]
      simp [formatNat]

theorem formatNat_small (n : Nat) (h : n < 10) : formatNat n = [digitChar n] := by
  have h0 : n / 10 = 0 := by omega
  have h1 : n % 10 = n := by omega
  simp [formatNat, formatNatAux, h0, h1]

theorem formatNat_large (n : Nat) (h : 10 ≤ n) :
    formatNat n = formatNat (n / 10) ++ [digitChar (n % 10)] := by
  have h0 : ¬ n / 10 = 0 := by omega
  have e := formatNatAux_eq (n / 10) n [digitChar (n % 10)] (by omega)
  simp only [formatNat, formatNatAux, h0, if_false] at e ⊢
  exact e

theorem parseDigits_append (xs ys : List Char) : ∀ acc : Nat,
    parseDigits (xs ++ ys) acc = (parseDigits xs acc).bind (parseDigits ys) := by
  induction xs with
  | nil => intro acc; rfl
  | cons c xs ih =>
    intro acc
    simp only [List.cons_append, parseDigits]
    cases digitVal c with
    | none => rfl
    | some d => exact ih _

theorem parseDigits_formatNat (n : Nat) : parseDigits (formatNat n) 0 = some n := by
  induction n using Nat.strong_induction_on with
  | _ n ih =>
    by_cases h : n < 10
    · rw [formatNat_small n h]
      simp [parseDigits, digitVal_digitChar n h]
    · rw [formatNat_large n (by omega), parseDigits_append, ih (n / 10) (by omega)]
      simp only [Option.some_bind, parseDigits, digitVal_digitChar (n % 10) (Nat.mod_lt _ (by decide))]
      congr 1
      omega

/-- Every character of a rendered natural number is a decimal digit. -/
theorem formatNat_digits (n : Nat) : ∀ c ∈ formatNat n, ∃ d, d < 10 ∧ c = digitChar d := by
  induction n using Nat.strong_induction_on with
  | _ n ih =>
    intro c hc
    by_cases h : n < 10
    · rw [formatNat_small n h] at hc
      exact ⟨n, h, by simpa using hc⟩
    · rw [formatNat_large n (by omega)] at hc
      rcases List.mem_append.mp hc with hc | hc
      · exact ih (n / 10) (by omega) c hc
      · exact ⟨n % 10, Nat.mod_lt _ (by decide), by simpa using hc⟩

theorem formatNat_ne_nil (n : Nat) : formatNat n ≠ [] := by
  by_cases h : n < 10
  · rw [formatNat_small n h]; simp
  · rw [formatNat_large n (by omega)]; simp

theorem digitChar_ne (d : Nat) (c : Char) (hc : digitVal c = none) : digitChar d ≠ c := by
  intro e
  subst e
  by_cases h : d < 10
  · rw [digitVal_digitChar d h] at hc; exact Option.noConfusion hc
  · have : digitChar d = digitChar 9 := by
      unfold digitChar
      split <;> first | omega | rfl
    rw [this, digitVal_digitChar 9 (by decide)] at hc
    exact Option.noConfusion hc

/-- A character that is not a decimal digit and not the minus sign does not
occur in a rendered integer. -/
theorem not_mem_formatInt (n : Int) (c : Char) (hc : digitVal c = none) (hm : c ≠ '-') :
    c ∉ formatInt n := by
  have hnat : c ∉ formatNat n.natAbs := by
    intro hmem
    obtain ⟨d, _, rfl⟩ := formatNat_digits _ c hmem
    exact digitChar_ne d _ hc rfl
  unfold formatInt
  split
  · intro hmem
    rcases List.mem_cons.mp hmem with e | e
    · exact hm e
    · exact hnat e
  · exact hnat

/-- Round trip of `%d` and `strconv.Atoi` on the range of `int`. -/
theorem atoi_formatInt (n : Int) (hlo : minInt ≤ n) (hhi : n ≤ maxInt) :
    atoi (formatInt n) = some n := by
  unfold formatInt
  by_cases hneg : n < 0
  · simp only [hneg, if_true]
    obtain ⟨c, cs, hcs⟩ := List.exists_cons_of_ne_nil (formatNat_ne_nil n.natAbs)
    have hp := parseDigits_formatNat n.natAbs
    have hval : -((n.natAbs : Nat) : Int) = n := by omega
    simp only [atoi, if_true]
    rw [hcs] at hp ⊢
    simp only [hp, hval, hlo, if_true]
  · simp only [hneg, if_false]
    obtain ⟨c, cs, hcs⟩ := List.exists_cons_of_ne_nil (formatNat_ne_nil n.natAbs)
    have hp := parseDigits_formatNat n.natAbs
    have hval : ((n.natAbs : Nat) : Int) = n := by omega
    have hcmem : c ∈ formatNat n.natAbs := by rw [hcs]; simp
    obtain ⟨d, _, hd⟩ := formatNat_digits _ c hcmem
    have h1 : c ≠ '-' := by rw [hd]; exact digitChar_ne d _ (by decide)
    have h2 : c ≠ '+' := by rw [hd]; exact digitChar_ne d _ (by decide)
    rw [hcs] at hp ⊢
    simp only [atoi, h1, h2, if_false, hp, hval, hhi, if_true]

/-! ## Facts about the loops -/

theorem wrapInt_of_range (n : Int) (hlo : minInt ≤ n) (hhi : n ≤ maxInt) : wrapInt n = n := by
  unfold minInt at hlo
  unfold maxInt at hhi
  unfold wrapInt
  omega

theorem contains_nil_of_ne_nil (k : GoString) (hk : k ≠ []) : contains [] k = false := by
  cases k with
  | nil => exact absurd rfl hk
  | cons c cs => rfl

theorem contains_sprintf (k : GoString) (n : Int) : contains (sprintf k n) k = true := by
  rw [contains_eq_true_iff]
  exact ⟨['"'], '"' :: ',' :: formatInt n, by simp [sprintf]⟩

theorem split_comma_sprintf (k : GoString) (n : Int) (hc : ',' ∉ k) :
    split ',' (sprintf k n) = ['"' :: (k ++ ['"']), formatInt n] := by
  have hshape : sprintf k n = ('"' :: (k ++ ['"'])) ++ ',' :: formatInt n := by
    simp [sprintf]
  have hleft : ',' ∉ '"' :: (k ++ ['"']) := by
    simp only [List.mem_cons, List.mem_append, List.mem_singleton, not_or]
    exact ⟨by decide, hc, by decide, by simp⟩
  rw [hshape, split_append_sep ',' _ _ hleft,
    split_of_not_mem ',' _ (not_mem_formatInt n ',' (by decide) (by decide))]

theorem split_newline_sprintf (k : GoString) (n : Int) (hn : '\n' ∉ k) :
    split '\n' (sprintf k n) = [sprintf k n] := by
  apply split_of_not_mem
  have hnum := not_mem_formatInt n '\n' (by decide) (by decide)
  simp only [sprintf, List.mem_cons, List.mem_append, not_or]
  exact ⟨by decide, hn, by decide, by decide, hnum⟩

/-- The inner loop on a line that does not contain the key: the line is
overwritten and the loop goes on to the next line. -/
theorem innerLoop_miss (k : GoString) (v : Int) (line : GoString) (rest : List GoString)
    (h : contains line k = false) :
    innerLoop k v (line :: rest)
      = (innerLoop k v rest).map (fun r => (sprintf k v :: r.1, r.2)) := by
  simp only [innerLoop, h]
  cases innerLoop k v rest with
  | none => rfl
  | some r => rfl

/-- The inner loop on a line that contains the key and whose second field
parses: the count is added and the loop stops. -/
theorem innerLoop_hit (k : GoString) (v c : Int) (line value : GoString) (rest : List GoString)
    (h : contains line k = true) (hsplit : (split ',' line)[1]? = some value)
    (hparse : atoi value = some c) :
    innerLoop k v (line :: rest) = some (sprintf k (wrapInt (c + v)) :: rest, false) := by
  simp only [innerLoop, h, if_true, hsplit, hparse]

/-! ## The merge step on concrete partitions -/

/-- C1 (the merge fails the output contract).  Partition content `"ua-a",2`,
delta with the single entry `ua-b -> 3`: the content written is the single line
`"ua-b",3`; the signature `ua-a` of the prior content is left without any record,
so the written content is not "one record (signature, prior + delta) for every
signature of the prior content or of the delta". -/
theorem merge_contract_violated :
    mergeContent [("ua-b".toList, 3)] "\"ua-a\",2".toList
        = some ("\"ua-b\",3".toList, false)
      ∧ split '\n' "\"ua-b\",3".toList = [sprintf "ua-b".toList 3]
      ∧ sprintf "ua-a".toList (2 + 0) ∉ split '\n' "\"ua-b\",3".toList := by
  decide

/-- C2 (an unrelated prior record is overwritten).  Partition content `"ua-z",5`,
delta with the single entry `ua-x -> 1`: line 186 overwrites the line of `ua-z`,
and the content written holds `"ua-x",1` only. -/
theorem merge_overwrites_unrelated_record :
    sprintf "ua-z".toList 5 = "\"ua-z\",5".toList
      ∧ contains (sprintf "ua-z".toList 5) "ua-x".toList = false
      ∧ innerLoop "ua-x".toList 1 [sprintf "ua-z".toList 5]
          = some ([sprintf "ua-x".toList 1], false)
      ∧ mergeContent [("ua-x".toList, 1)] (sprintf "ua-z".toList 5)
          = some ("\"ua-x\",1".toList, false) := by
  decide

/-- C3 (two signatures recorded once each, flushed to an empty partition).  In
either iteration order of the two entries the content written is one line: the
entry processed last overwrites the line of the entry processed first, whose
record occurs zero times. -/
theorem isolation_violated_both_orders :
    mergeContent [("ua-x".toList, 1), ("ua-y".toList, 1)] []
        = some (sprintf "ua-y".toList 1, false)
      ∧ (split '\n' (sprintf "ua-y".toList 1)).count (sprintf "ua-x".toList 1) = 0
      ∧ mergeContent [("ua-y".toList, 1), ("ua-x".toList, 1)] []
        = some (sprintf "ua-x".toList 1, false)
      ∧ (split '\n' (sprintf "ua-x".toList 1)).count (sprintf "ua-y".toList 1) = 0 := by
  decide

/-- C4 (additive accumulation of one signature).  For a non-empty signature `k`
without comma and newline and counts `v, w >= 1` whose sum is a Go `int`: a tick
that flushes the counter holding only `k -> v` into an empty partition writes
exactly the line `"k",v`, and a tick that flushes `k -> w` into that content writes
exactly the line `"k",v+w`; both contents are a single line. -/
theorem additive_accumulation (k : GoString) (v w : Int) (hk : k ≠ [])
    (hc : ',' ∉ k) (hn : '\n' ∉ k) (hv : 1 ≤ v) (hw : 1 ≤ w) (hsum : v + w ≤ maxInt) :
    tick (FsEnv.mk true true (some []) true) [(k, v)]
        = some ([], Outcome.written (sprintf k v))
      ∧ split '\n' (sprintf k v) = [sprintf k v]
      ∧ tick (FsEnv.mk true true (some (sprintf k v)) true) [(k, w)]
        = some ([], Outcome.written (sprintf k (v + w)))
      ∧ split '\n' (sprintf k (v + w)) = [sprintf k (v + w)] := by
  have hmax : maxInt = 9223372036854775807 := rfl
  have hmin : minInt = -9223372036854775808 := rfl
  have hfirst : innerLoop k v [[]] = some ([sprintf k v], false) := by
    rw [innerLoop_miss k v [] [] (contains_nil_of_ne_nil k hk)]
    rfl
  have hsecond : innerLoop k w [sprintf k v] = some ([sprintf k (v + w)], false) := by
    have hfield : (split ',' (sprintf k v))[1]? = some (formatInt v) := by
      rw [split_comma_sprintf k v hc]
      rfl
    rw [innerLoop_hit k w v (sprintf k v) (formatInt v) [] (contains_sprintf k v) hfield
      (atoi_formatInt v (by omega) (by omega)),
      wrapInt_of_range (v + w) (by omega) hsum]
  refine ⟨?_, split_newline_sprintf k v hn, ?_, split_newline_sprintf k (v + w) hn⟩
  · simp [tick, mergeLoop, split, hfirst, join]
  · simp [tick, mergeLoop, split_newline_sprintf k v hn, hsecond, join]

/-- C4 at `k = ua-x`, `v = w = 3`: the partition holds `"ua-x",3` after the first
flush and `"ua-x",6` after the second. -/
theorem additive_accumulation_witness :
    tick (FsEnv.mk true true (some []) true) [("ua-x".toList, 3)]
        = some ([], Outcome.written "\"ua-x\",3".toList)
      ∧ tick (FsEnv.mk true true (some "\"ua-x\",3".toList) true) [("ua-x".toList, 3)]
        = some ([], Outcome.written "\"ua-x\",6".toList) :=
  have h := additive_accumulation "ua-x".toList 3 3 (by decide) (by decide) (by decide)
    (by decide) (by decide) (by decide)
  ⟨h.1, h.2.2.1⟩

/-- C5 (the match is by substring, not by signature).  Partition content
`"ua-xy",5`, delta with the single entry `ua-x -> 1`: `strings.Contains` finds
`ua-x` inside the line of the different signature `ua-xy`, so that line becomes
`"ua-x",6`: its signature is changed and the delta count is added to its count. -/
theorem substring_match_changes_other_record :
    ("ua-xy".toList ≠ "ua-x".toList)
      ∧ contains (sprintf "ua-xy".toList 5) "ua-x".toList = true
      ∧ mergeContent [("ua-x".toList, 1)] "\"ua-xy\",5".toList
          = some ("\"ua-x\",6".toList, false)
      ∧ sprintf "ua-xy".toList 5 ∉ split '\n' "\"ua-x\",6".toList := by
  decide

/-- C6 (duplicate signatures are produced).  Partition content of the two lines
`"a",1` and `"b",2`, delta with the single entry `b -> 1`: the line of `a` is
overwritten with `"b",1` before the line of `b` is found and updated, so the
lines written are `"b",1` and `"b",3`, twice the signature `b`. -/
theorem merge_produces_duplicate_signature :
    split '\n' "\"a\",1\n\"b\",2".toList = [sprintf "a".toList 1, sprintf "b".toList 2]
      ∧ mergeLoop [("b".toList, 1)] [sprintf "a".toList 1, sprintf "b".toList 2] false
          = some ([sprintf "b".toList 1, sprintf "b".toList 3], false)
      ∧ mergeContent [("b".toList, 1)] "\"a\",1\n\"b\",2".toList
          = some ("\"b\",1\n\"b\",3".toList, false) := by
  decide

/-- C7 (the result depends on the iteration order).  Partition content
`"ua-z",5`, counter with the entries `ua-x -> 1` and `ua-y -> 2`: iterating
`ua-x` first writes `"ua-y",2`, iterating `ua-y` first writes `"ua-x",1`. -/
theorem merge_depends_on_iteration_order :
    List.Perm [("ua-x".toList, (1 : Int)), ("ua-y".toList, 2)]
        [("ua-y".toList, 2), ("ua-x".toList, 1)]
      ∧ mergeContent [("ua-x".toList, 1), ("ua-y".toList, 2)] "\"ua-z\",5".toList
          = some ("\"ua-y\",2".toList, false)
      ∧ mergeContent [("ua-y".toList, 2), ("ua-x".toList, 1)] "\"ua-z\",5".toList
          = some ("\"ua-x\",1".toList, false)
      ∧ mergeContent [("ua-x".toList, 1), ("ua-y".toList, 2)] "\"ua-z\",5".toList
          ≠ mergeContent [("ua-y".toList, 2), ("ua-x".toList, 1)] "\"ua-z\",5".toList :=
  ⟨List.Perm.swap _ _ _, by decide, by decide, by decide⟩

/-! ## One tick of the flush loop -/

/-- The counter after one tick: empty after a successful write, untouched after
any other outcome. -/
theorem tick_counter_after (env : FsEnv) (stats : Stats) (hne : stats ≠ []) :
    (∀ stats' content, tick env stats = some (stats', Outcome.written content) →
        stats' = [])
      ∧ (∀ stats' o, tick env stats = some (stats', o) →
          (∀ c, o ≠ Outcome.written c) → stats' = stats) := by
  have hlen : ¬ stats.length = 0 := by
    intro h
    exact hne (List.length_eq_zero.mp h)
  refine ⟨?_, ?_⟩
  · intro stats' content htick
    unfold tick at htick
    rw [if_neg hlen] at htick
    split at htick
    · cases htick
    · split at htick
      · cases htick
      · split at htick
        · cases htick
        · split at htick
          · exact Option.noConfusion htick
          · split at htick
            · cases htick
            · cases htick; rfl
  · intro stats' o htick ho
    unfold tick at htick
    rw [if_neg hlen] at htick
    split at htick
    · cases htick; rfl
    · split at htick
      · cases htick; rfl
      · split at htick
        · cases htick; rfl
        · split at htick
          · exact Option.noConfusion htick
          · split at htick
            · cases htick; rfl
            · cases htick
              exact absurd rfl (ho _)

/-- C8 (a failure keeps the counter).  For a non-empty counter: when
`os.MkdirAll`, `os.OpenFile`, `io.ReadAll` or `file.Write` fails, the tick ends
with the matching outcome and the counter it leaves is the counter it found;
and whenever a tick ends with one of these four outcomes, the counter is
unchanged. -/
theorem failure_retains_delta (env : FsEnv) (stats : Stats) (hne : stats ≠ []) :
    (env.mkdirOk = false → tick env stats = some (stats, Outcome.mkdirFailed))
      ∧ (env.mkdirOk = true → env.openOk = false →
          tick env stats = some (stats, Outcome.openFailed))
      ∧ (env.mkdirOk = true → env.openOk = true → env.readResult = none →
          tick env stats = some (stats, Outcome.readFailed))
      ∧ (∀ b data closed, env.mkdirOk = true → env.openOk = true →
          env.readResult = some b →
          mergeLoop stats (split '\n' b) false = some (data, closed) →
          env.writeOk = false →
          tick env stats = some (stats, Outcome.writeFailed))
      ∧ (∀ stats' o, tick env stats = some (stats', o) →
          (o = Outcome.mkdirFailed ∨ o = Outcome.openFailed ∨ o = Outcome.readFailed
            ∨ o = Outcome.writeFailed) →
          stats' = stats) := by
  have hlen : ¬ stats.length = 0 := by
    intro h
    exact hne (List.length_eq_zero.mp h)
  refine ⟨?_, ?_, ?_, ?_, ?_⟩
  · intro h1
    simp [tick, hlen, h1]
  · intro h1 h2
    simp [tick, hlen, h1, h2]
  · intro h1 h2 h3
    simp [tick, hlen, h1, h2, h3]
  · intro b data closed h1 h2 h3 h4 h5
    simp [tick, hlen, h1, h2, h3, h4, h5]
  · intro stats' o htick ho
    unfold tick at htick
    rw [if_neg hlen] at htick
    split at htick
    · cases htick; rfl
    · split at htick
      · cases htick; rfl
      · split at htick
        · cases htick; rfl
        · split at htick
          · exact Option.noConfusion htick
          · split at htick
            · cases htick; rfl
            · cases htick
              rcases ho with ho | ho | ho | ho <;> exact Outcome.noConfusion ho

/-- C8 at the counter `ua-x -> 1`, an empty partition and a filesystem that
rejects the write: the tick ends in `writeFailed` and the counter is kept. -/
theorem failure_retains_delta_witness :
    [("ua-x".toList, (1 : Int))] ≠ []
      ∧ tick (FsEnv.mk true true (some []) false) [("ua-x".toList, 1)]
          = some ([("ua-x".toList, 1)], Outcome.writeFailed) :=
  ⟨by decide,
    (failure_retains_delta (FsEnv.mk true true (some []) false) [("ua-x".toList, 1)]
      (by decide)).2.2.2.1 [] [sprintf "ua-x".toList 1] false rfl rfl rfl (by decide) rfl⟩

/-- C9 (full reset on success).  For a non-empty counter: a tick whose write
succeeded leaves the empty counter; and when directory creation, open and read
succeed, the merge loop completes with the file still open and the filesystem
accepts the write, the tick does end with a successful write. -/
theorem full_reset_on_success (env : FsEnv) (stats : Stats) (hne : stats ≠ []) :
    (∀ stats' content, tick env stats = some (stats', Outcome.written content) →
        stats' = [])
      ∧ (∀ b data, env.mkdirOk = true → env.openOk = true → env.readResult = some b →
          mergeLoop stats (split '\n' b) false = some (data, false) →
          env.writeOk = true →
          tick env stats = some ([], Outcome.written (join '\n' data))) := by
  have hlen : ¬ stats.length = 0 := by
    intro h
    exact hne (List.length_eq_zero.mp h)
  refine ⟨?_, ?_⟩
  · intro stats' content htick
    unfold tick at htick
    rw [if_neg hlen] at htick
    split at htick
    · cases htick
    · split at htick
      · cases htick
      · split at htick
        · cases htick
        · split at htick
          · exact Option.noConfusion htick
          · split at htick
            · cases htick
            · cases htick; rfl
  · intro b data h1 h2 h3 h4 h5
    simp [tick, hlen, h1, h2, h3, h4, h5]

/-- C9 at the counter `ua-x -> 2`, `ua-y -> 1` and the partition content
`"ua-x",5`: the write succeeds and the counter left is empty. -/
theorem full_reset_on_success_witness :
    [("ua-x".toList, (2 : Int)), ("ua-y".toList, 1)] ≠ []
      ∧ tick (FsEnv.mk true true (some "\"ua-x\",5".toList) true)
          [("ua-x".toList, 2), ("ua-y".toList, 1)]
          = some ([], Outcome.written "\"ua-y\",1".toList) :=
  ⟨by decide,
    (full_reset_on_success (FsEnv.mk true true (some "\"ua-x\",5".toList) true)
      [("ua-x".toList, 2), ("ua-y".toList, 1)] (by decide)).2
      "\"ua-x\",5".toList ["\"ua-y\",1".toList] rfl rfl rfl (by decide) rfl⟩

/-- C10 (the merge loop can panic).  With the empty signature in the counter and
an empty partition file, `strings.Contains("", "")` holds and
`strings.Split("", ",")` has the single element `""`, so the index `[1]` of
line 174 is out of range: the merge loop, and the tick, end in a panic.  The same
happens for any line without a comma that contains the key. -/
theorem merge_panics_on_line_without_comma :
    split '\n' [] = [[]]
      ∧ contains [] [] = true
      ∧ (split ',' [])[1]? = none
      ∧ mergeContent [([], 1)] [] = none
      ∧ tick (FsEnv.mk true true (some []) true) [([], 1)] = none
      ∧ mergeContent [("ua-x".toList, 1)] "ua-x".toList = none := by
  decide

/-! ## The request handler: sanitizer and counter -/

theorem replaceAll_nil_eq_filter (old : Char) (s : GoString) :
    replaceAll old [] s = s.filter (fun c => decide (c ≠ old)) := by
  induction s with
  | nil => rfl
  | cons c s ih =>
    by_cases h : c = old
    · simp [replaceAll, h, ih]
    · simp [replaceAll, h, ih]

theorem mapGet_mapSet_same (stats : Stats) (k : GoString) (c : Int) :
    mapGet (mapSet stats k c) k = some c := by
  induction stats with
  | nil => simp [mapSet, mapGet]
  | cons e rest ih =>
    obtain ⟨k', c'⟩ := e
    by_cases h : k' = k
    · simp [mapSet, mapGet, h]
    · simp [mapSet, mapGet, h, ih]

theorem mapGet_mapSet_other (stats : Stats) (k j : GoString) (c : Int) (hj : j ≠ k) :
    mapGet (mapSet stats k c) j = mapGet stats j := by
  induction stats with
  | nil =>
    have hkj : ¬ k = j := fun e => hj e.symm
    simp [mapSet, mapGet, hkj]
  | cons e rest ih =>
    obtain ⟨k', c'⟩ := e
    by_cases h : k' = k
    · have hkj : ¬ k = j := fun e => hj e.symm
      have hk'j : ¬ k' = j := by rw [h]; exact hkj
      simp [mapSet, mapGet, h, hkj]
    · by_cases h2 : k' = j
      · rw [h2] at h
        simp [mapSet, mapGet, h, h2]
      · simp [mapSet, mapGet, h, h2, ih]

/-- C13 (signature sanitizer).  The key computed on line 67 is the user agent
with every comma removed and every other character kept in order; it contains
no comma; and it is the key under which the handler counts the request. -/
theorem sanitize_removes_commas (s : GoString) :
    sanitize s = s.filter (fun c => decide (c ≠ ','))
      ∧ ',' ∉ sanitize s
      ∧ (∀ (isCrawler : GoString → Bool) (stats : Stats),
          countRequest isCrawler stats s
            = if isCrawler s = false then record stats (s.filter (fun c => decide (c ≠ ',')))
              else stats) := by
  have h : sanitize s = s.filter (fun c => decide (c ≠ ',')) := replaceAll_nil_eq_filter ',' s
  refine ⟨h, ?_, ?_⟩
  · rw [h]
    simp [List.mem_filter]
  · intro isCrawler stats
    simp only [countRequest, h]

/-- The example of the sanitizer: `A,B` is stored as `AB`. -/
theorem sanitize_example : sanitize "A,B".toList = "AB".toList := by decide

/-- C14 (record).  After the handler has recorded one observation of `k`, the
count of `k` is 1 when `k` was absent, and the previous count plus 1 when `k`
was present with a count below the largest `int`. -/
theorem record_count (stats : Stats) (k : GoString) :
    (mapGet stats k = none → mapGet (record stats k) k = some 1)
      ∧ (∀ c, mapGet stats k = some c → minInt ≤ c → c < maxInt →
          mapGet (record stats k) k = some (c + 1)) := by
  refine ⟨?_, ?_⟩
  · intro h
    simp only [record, h]
    exact mapGet_mapSet_same stats k 1
  · intro c h hlo hhi
    have hmax : maxInt = 9223372036854775807 := rfl
    have hmin : minInt = -9223372036854775808 := rfl
    simp only [record, h]
    rw [mapGet_mapSet_same, wrapInt_of_range (c + 1) (by omega) (by omega)]

/-- C14 at the counter `ua-x -> 4`: recording `ua-y` gives it the count 1,
recording `ua-x` gives it the count 5. -/
theorem record_count_witness :
    mapGet (record [("ua-x".toList, 4)] "ua-y".toList) "ua-y".toList = some 1
      ∧ mapGet (record [("ua-x".toList, 4)] "ua-x".toList) "ua-x".toList = some (4 + 1) :=
  ⟨(record_count [("ua-x".toList, 4)] "ua-y".toList).1 (by decide),
    (record_count [("ua-x".toList, 4)] "ua-x".toList).2 4 (by decide) (by decide) (by decide)⟩

/-! ## The flush loop on a filesystem -/

theorem Disk.read_store (d : Disk) (path content : GoString) :
    (d.store path content).read path = some content := by
  simp [Disk.read, Disk.store]

theorem Disk.read_mkdirAll (d : Disk) (dir path : GoString) :
    (d.mkdirAll dir).read path = d.read path := by
  have hfiles : ∀ (l : List GoString) (acc : Disk),
      (l.foldl (fun acc p => if p ∈ acc.dirs then acc else { acc with dirs := p :: acc.dirs })
        acc).files = acc.files := by
    intro l
    induction l with
    | nil => intro acc; rfl
    | cons p rest ih =>
      intro acc
      rw [List.foldl_cons, ih]
      split <;> rfl
  unfold Disk.read Disk.mkdirAll
  rw [hfiles]

/-- The iteration on a filesystem and the iteration on filesystem answers
(`tick`) agree on the counter and on the outcome. -/
theorem flushCycle_tick (ans : FsAnswers) (fileDir : GoString) (now : Timestamp) (disk : Disk)
    (stats : Stats) :
    (flushCycle ans fileDir now disk stats).map (fun r => (r.stats, r.outcome))
      = tick (FsEnv.mk ans.mkdirOk ans.openOk
          (if ans.readOk = true
            then some ((disk.read (partitionFile fileDir now)).getD []) else none)
          ans.writeOk) stats := by
  unfold flushCycle tick
  by_cases h0 : stats.length = 0
  · simp [h0]
  · by_cases h1 : ans.mkdirOk = false
    · simp [h0, h1]
    · by_cases h2 : ans.openOk = false
      · simp [h0, h1, h2]
      · by_cases h3 : ans.readOk = false
        · simp [h0, h1, h2, h3]
        · have h3' : ans.readOk = true := by simpa using h3
          simp only [h0, h1, h2, h3, h3', if_false, if_true, fileReadAll, List.drop_zero,
            Disk.read_mkdirAll, partitionFile]
          cases hm : mergeLoop stats
              (split '\n' ((disk.read (filepathJoin [partitionDir fileDir now,
                formatInt now.day ++ ".csv".toList])).getD [])) false with
          | none => simp
          | some r =>
            obtain ⟨data, closed⟩ := r
            by_cases hc : closed = true
            · simp [hc]
            · by_cases hw : ans.writeOk = false
              · simp [hc, hw]
              · simp [hc, hw]

/-- C11 (a failing directory creation ends the flush loop).  Environment without
`LOG_FILE_DIR`, empty counter and filesystem; one request of `ua-x` is counted
before each of two deliveries of the ticker; `os.MkdirAll` fails at the first
delivery and everything works at the second.  The function returns the error at
the first delivery: the second delivery is never processed, no file exists
afterwards and the count stays in memory.  With a failing `os.OpenFile` in place
of the failing `os.MkdirAll`, the second delivery is processed and writes
`"ua-x",2`. -/
theorem mkdir_failure_ends_flush_loop :
    writeStatsToFile []
        [Tick.mk (Timestamp.mk 2026 11 4 10 0 0)
            (FsAnswers.mk false true true true true true) ["ua-x".toList],
         Tick.mk (Timestamp.mk 2026 11 4 10 0 10)
            (FsAnswers.mk true true true true true true) ["ua-x".toList]]
        (World.mk [] (Disk.mk [] []))
      = LoopResult.mk (World.mk [("ua-x".toList, 1)] (Disk.mk [] []))
          [Outcome.mkdirFailed] LoopEnd.returnedErr
    ∧ (writeStatsToFile []
        [Tick.mk (Timestamp.mk 2026 11 4 10 0 0)
            (FsAnswers.mk true false true true true true) ["ua-x".toList],
         Tick.mk (Timestamp.mk 2026 11 4 10 0 10)
            (FsAnswers.mk true true true true true true) ["ua-x".toList]]
        (World.mk [] (Disk.mk [] []))).outcomes
      = [Outcome.openFailed, Outcome.written "\"ua-x\",2".toList] := by
  decide

/-- C12 (a count that does not parse makes the tick write nothing).  Partition
file of 4 November 2026 with the content `"ua-x",abc`, counter `ua-x -> 1`, every
filesystem call answering well: `strconv.Atoi` fails on `abc`, line 179 closes
the file, and the write of line 194 fails on the closed file.  The tick ends in
`writeFailed`, the file still holds `"ua-x",abc` and the counter is kept. -/
theorem parse_error_abandons_the_write :
    atoi "abc".toList = none
      ∧ mergeContent [("ua-x".toList, 1)] "\"ua-x\",abc".toList
          = some ("\"ua-x\",abc".toList, true)
      ∧ (flushCycle (FsAnswers.mk true true true true true true) "./logs/helprob".toList
          (Timestamp.mk 2026 11 4 10 0 0)
          (Disk.mk [] [("logs/helprob/2026/November/4.csv".toList, "\"ua-x\",abc".toList)])
          [("ua-x".toList, 1)]).map (fun r => (r.stats, r.outcome, r.disk.files))
        = some ([("ua-x".toList, 1)], Outcome.writeFailed,
            [("logs/helprob/2026/November/4.csv".toList, "\"ua-x\",abc".toList)]) := by
  decide

/-- C17 (empty counter: nothing happens).  At a delivery of the ticker with an
empty counter the iteration makes no filesystem call, leaves the filesystem as
it is and leaves the counter empty, whatever the filesystem would answer. -/
theorem empty_counter_no_op (ans : FsAnswers) (fileDir : GoString) (now : Timestamp)
    (disk : Disk) :
    flushCycle ans fileDir now disk [] = some (CycleResult.mk [] Outcome.idle disk [])
      ∧ flushLoop fileDir [Tick.mk now ans []] (World.mk [] disk)
          = LoopResult.mk (World.mk [] disk) [Outcome.idle] LoopEnd.waiting := by
  constructor
  · rfl
  · rfl

/-- C18, as stated, fails: with `LOG_FILE_DIR` unset, `getEnv` yields the default
root, the function does not return, a delivery of the ticker is processed and
the count is persisted under `logs/helprob`. -/
theorem unset_root_is_not_inert :
    getEnv [] "LOG_FILE_DIR".toList "./logs/helprob".toList = "./logs/helprob".toList
      ∧ writeStatsToFile []
          [Tick.mk (Timestamp.mk 2026 11 4 10 0 0)
            (FsAnswers.mk true true true true true true) ["ua-x".toList]]
          (World.mk [] (Disk.mk [] []))
        = LoopResult.mk
            (World.mk []
              (Disk.mk ["logs/helprob/2026/November".toList, "logs/helprob/2026".toList,
                  "logs/helprob".toList, "logs".toList]
                [("logs/helprob/2026/November/4.csv".toList, "\"ua-x\",1".toList)]))
            [Outcome.written "\"ua-x\",1".toList] LoopEnd.waiting := by
  decide

/-- C18, amended.  When `LOG_FILE_DIR` is not set, `writeStatsToFile` runs the
flush loop on the default root `./logs/helprob`; and the body of the function
returns `nil` at once, with no delivery processed and the world untouched, when
the root it is given is the empty string. -/
theorem root_default_and_empty_root (environ : Environ) (ticks : List Tick) (w : World)
    (hunset : ∀ e ∈ environ, e.1 ≠ "LOG_FILE_DIR".toList) :
    writeStatsToFile environ ticks w = flushLoop "./logs/helprob".toList ticks w
      ∧ writeStatsToFileFrom [] ticks w = LoopResult.mk w [] LoopEnd.returnedNil := by
  have hget : osGetenv environ "LOG_FILE_DIR".toList = [] := by
    induction environ with
    | nil => rfl
    | cons e rest ih =>
      obtain ⟨k, v⟩ := e
      have hk : k ≠ "LOG_FILE_DIR".toList := hunset (k, v) (by simp)
      have hrest : ∀ e ∈ rest, e.1 ≠ "LOG_FILE_DIR".toList :=
        fun e he => hunset e (List.mem_cons_of_mem _ he)
      simp only [osGetenv, hk, if_false]
      exact ih hrest
  refine ⟨?_, ?_⟩
  · simp only [writeStatsToFile, getEnv, hget, if_true]
    rfl
  · rfl

/-- C18 amended, in an environment that only sets `DOMAIN`. -/
theorem root_default_and_empty_root_witness :
    writeStatsToFile [("DOMAIN".toList, "example.org".toList)]
        [Tick.mk (Timestamp.mk 2026 11 4 10 0 0)
          (FsAnswers.mk true true true true true true) ["ua-x".toList]]
        (World.mk [] (Disk.mk [] []))
      = flushLoop "./logs/helprob".toList
        [Tick.mk (Timestamp.mk 2026 11 4 10 0 0)
          (FsAnswers.mk true true true true true true) ["ua-x".toList]]
        (World.mk [] (Disk.mk [] []))
    ∧ writeStatsToFileFrom []
        [Tick.mk (Timestamp.mk 2026 11 4 10 0 0)
          (FsAnswers.mk true true true true true true) ["ua-x".toList]]
        (World.mk [] (Disk.mk [] []))
      = LoopResult.mk (World.mk [] (Disk.mk [] [])) [] LoopEnd.returnedNil :=
  root_default_and_empty_root [("DOMAIN".toList, "example.org".toList)] _ _ (by decide)

/-- C19 (an absent signature is not appended).  Partition content `"bot-a",7`,
delta with the single entry `bot-b -> 2`, no prior record of `bot-b`: the content
written is the single line `"bot-b",2`, not the prior line followed by the new
one; the number of lines stays 1. -/
theorem absent_key_overwrites_instead_of_appending :
    mergeContent [("bot-b".toList, 2)] "\"bot-a\",7".toList
        = some ("\"bot-b\",2".toList, false)
      ∧ "\"bot-b\",2".toList ≠ "\"bot-a\",7\n\"bot-b\",2".toList
      ∧ (split '\n' "\"bot-a\",7".toList).length = 1
      ∧ (split '\n' "\"bot-b\",2".toList).length = 1 := by
  decide

/-- C20 (the file holds exactly the merged lines).  For a non-empty counter,
when every filesystem call of the tick succeeds (in particular `Truncate`,
`Seek` and `Write`) and the merge loop completes with the file open, the
partition file holds afterwards exactly the merged lines joined by newlines,
whatever its prior content and length. -/
theorem file_reflects_merged_lines (ans : FsAnswers) (fileDir : GoString) (now : Timestamp)
    (disk : Disk) (stats : Stats) (data : List GoString) (hne : stats ≠ [])
    (hmk : ans.mkdirOk = true) (hop : ans.openOk = true) (hrd : ans.readOk = true)
    (htr : ans.truncateOk = true) (hsk : ans.seekOk = true) (hwr : ans.writeOk = true)
    (hmerge : mergeLoop stats
        (split '\n' ((disk.read (partitionFile fileDir now)).getD [])) false
      = some (data, false)) :
    ∃ d calls, flushCycle ans fileDir now disk stats
          = some (CycleResult.mk [] (Outcome.written (join '\n' data)) d calls)
      ∧ d.read (partitionFile fileDir now) = some (join '\n' data) := by
  have hlen : ¬ stats.length = 0 := by
    intro h
    exact hne (List.length_eq_zero.mp h)
  have hmerge' : mergeLoop stats
      (split '\n' ((disk.read (filepathJoin [partitionDir fileDir now,
        formatInt now.day ++ ".csv".toList])).getD [])) false = some (data, false) := hmerge
  unfold flushCycle
  simp only [hlen, hmk, hop, hrd, htr, hsk, hwr, if_false, if_true, fileReadAll,
    List.drop_zero, Disk.read_mkdirAll, hmerge', Bool.true_eq_false, Bool.false_eq_true]
  refine ⟨_, _, rfl, ?_⟩
  show Disk.read (Disk.store _ (partitionFile fileDir now) _) (partitionFile fileDir now) = _
  rw [Disk.read_store]
  simp [fileWrite, fileSeek, fileTruncate]

/-! ## Paths: `filepath.Clean` and `filepath.Join` -/

theorem split_ne_nil (sep : Char) (s : GoString) : split sep s ≠ [] := by
  induction s with
  | nil => simp [split]
  | cons c s ih =>
    unfold split
    split
    · simp
    · split <;> simp

theorem split_cons_of_ne (sep c : Char) (s : GoString) (hc : c ≠ sep) :
    ∃ p ps, split sep s = p :: ps ∧ split sep (c :: s) = (c :: p) :: ps := by
  obtain ⟨p, ps, hp⟩ := List.exists_cons_of_ne_nil (split_ne_nil sep s)
  exact ⟨p, ps, hp, by simp [split, hc, hp]⟩

/-- Splitting distributes over a separator in the middle. -/
theorem split_append (sep : Char) (a b : GoString) :
    split sep (a ++ sep :: b) = split sep a ++ split sep b := by
  induction a with
  | nil => simp [split]
  | cons c a ih =>
    by_cases hc : c = sep
    · simp [split, hc, ih]
    · obtain ⟨p, ps, hp, hcp⟩ := split_cons_of_ne sep c a hc
      obtain ⟨q, qs, hq, hcq⟩ := split_cons_of_ne sep c (a ++ sep :: b) hc
      rw [List.cons_append, hcq, hcp]
      rw [ih, hp] at hq
      simp only [List.cons_append, List.cons.injEq] at hq
      obtain ⟨h1, h2⟩ := hq
      simp [h1, h2]

theorem join_cons_cons (sep : Char) (a b : GoString) (rest : List GoString) :
    join sep (a :: b :: rest) = a ++ sep :: join sep (b :: rest) := rfl

/-- Splitting undoes joining, for pieces free of the separator. -/
theorem split_join (sep : Char) (l : List GoString) (hne : l ≠ [])
    (hfree : ∀ e ∈ l, sep ∉ e) : split sep (join sep l) = l := by
  induction l with
  | nil => exact absurd rfl hne
  | cons a rest ih =>
    cases rest with
    | nil =>
      simp only [join]
      exact split_of_not_mem sep a (hfree a (by simp))
    | cons b rest' =>
      rw [join_cons_cons, split_append_sep sep a _ (hfree a (by simp)),
        ih (by simp) (fun e he => hfree e (List.mem_cons_of_mem _ he))]

theorem join_append_singleton (sep : Char) (l : List GoString) (hne : l ≠ []) (e : GoString) :
    join sep (l ++ [e]) = join sep l ++ sep :: e := by
  induction l with
  | nil => exact absurd rfl hne
  | cons a rest ih =>
    cases rest with
    | nil => simp [join]
    | cons b rest' =>
      have h := ih (by simp)
      simp only [List.cons_append] at h ⊢
      rw [join_cons_cons, join_cons_cons, h]
      simp

theorem join_head (sep : Char) (a : GoString) (rest : List GoString) (ha : a ≠ []) :
    (join sep (a :: rest)).head? = a.head? := by
  obtain ⟨c, cs, rfl⟩ := List.exists_cons_of_ne_nil ha
  cases rest with
  | nil => rfl
  | cons b rest' => rfl

theorem ordinary_of_mem (e : GoString) (c : Char) (hc : c ∈ e) (hdot : c ≠ '.') :
    Ordinary e := by
  refine ⟨?_, ?_, ?_⟩
  · intro h; rw [h] at hc; simp at hc
  · intro h; rw [h] at hc; simp at hc; exact hdot hc
  · intro h; rw [h] at hc; simp at hc; exact hdot hc

theorem cleanStep_ordinary (rooted : Bool) (stack : List GoString) (e : GoString)
    (he : Ordinary e) : cleanStep rooted stack e = e :: stack := by
  obtain ⟨h1, h2, h3⟩ := he
  simp [cleanStep, h1, h2, h3]

theorem foldl_cleanStep_ordinary (rooted : Bool) (l : List GoString) :
    ∀ stack : List GoString, (∀ e ∈ l, Ordinary e) →
      l.foldl (cleanStep rooted) stack = l.reverse ++ stack := by
  induction l with
  | nil => intro stack _; rfl
  | cons a rest ih =>
    intro stack h
    rw [List.foldl_cons, cleanStep_ordinary rooted stack a (h a (by simp)),
      ih _ (fun e he => h e (List.mem_cons_of_mem _ he))]
    simp

theorem stackOk_nil (rooted : Bool) : StackOk rooted [] :=
  ⟨[], 0, rfl, by simp, fun _ => rfl⟩

theorem stackOk_push (rooted : Bool) (stack : List GoString) (e : GoString)
    (h : StackOk rooted stack) (he : Ordinary e) (hfree : '/' ∉ e) :
    StackOk rooted (e :: stack) := by
  obtain ⟨ords, n, hst, hords, hn⟩ := h
  refine ⟨e :: ords, n, by simp [hst], ?_, hn⟩
  intro x hx
  rcases List.mem_cons.mp hx with hx | hx
  · rw [hx]; exact ⟨he, hfree⟩
  · exact hords x hx

theorem stackOk_step (rooted : Bool) (stack : List GoString) (e : GoString)
    (h : StackOk rooted stack) (hfree : '/' ∉ e) : StackOk rooted (cleanStep rooted stack e) := by
  by_cases h1 : e = []
  · simp [cleanStep, h1, h]
  by_cases h2 : e = ['.']
  · simp [cleanStep, h2, h]
  by_cases h3 : e = ['.', '.']
  · obtain ⟨ords, n, hst, hords, hn⟩ := h
    subst h3
    cases ords with
    | nil =>
      cases n with
      | zero =>
        simp only [List.replicate, List.nil_append] at hst
        subst hst
        cases rooted with
        | true => simpa [cleanStep] using stackOk_nil true
        | false =>
          simp only [cleanStep]
          exact ⟨[], 1, rfl, by simp, by simp⟩
      | succ m =>
        have hr : rooted = false := by
          cases rooted with
          | false => rfl
          | true => exact absurd (hn rfl) (by simp)
        subst hr
        subst hst
        simp only [List.nil_append, List.replicate_succ, cleanStep]
        exact ⟨[], m + 2, by simp [List.replicate_succ], by simp, by simp⟩
    | cons top below =>
      subst hst
      have htop : top ≠ ['.', '.'] := (hords top (by simp)).1.2.2
      simp only [List.cons_append, cleanStep, htop]
      exact ⟨below, n, by simp, fun x hx => hords x (List.mem_cons_of_mem _ hx), hn⟩
  · rw [cleanStep_ordinary rooted stack e ⟨h1, h2, h3⟩]
    exact stackOk_push rooted stack e h ⟨h1, h2, h3⟩ hfree

theorem stackOk_foldl (rooted : Bool) (l : List GoString) :
    ∀ stack : List GoString, StackOk rooted stack → (∀ e ∈ l, '/' ∉ e) →
      StackOk rooted (l.foldl (cleanStep rooted) stack) := by
  induction l with
  | nil => intro stack h _; exact h
  | cons a rest ih =>
    intro stack h hfree
    rw [List.foldl_cons]
    exact ih _ (stackOk_step rooted stack a h (hfree a (by simp)))
      (fun e he => hfree e (List.mem_cons_of_mem _ he))

theorem not_mem_of_mem_split (sep : Char) (s : GoString) :
    ∀ p ∈ split sep s, sep ∉ p := by
  induction s with
  | nil => intro p hp; simp [split] at hp; simp [hp]
  | cons c s ih =>
    intro p hp
    by_cases hc : c = sep
    · simp only [split, hc, if_true, List.mem_cons] at hp
      rcases hp with hp | hp
      · simp [hp]
      · exact ih p hp
    · obtain ⟨q, qs, hq, hcq⟩ := split_cons_of_ne sep c s hc
      rw [hcq] at hp
      rcases List.mem_cons.mp hp with hp | hp
      · rw [hp]
        intro hmem
        rcases List.mem_cons.mp hmem with e | e
        · exact hc e.symm
        · exact ih q (by rw [hq]; simp) e
      · exact ih p (by rw [hq]; exact List.mem_cons_of_mem _ hp)

theorem stackOk_cleanStack (path : GoString) :
    StackOk (decide (path.head? = some '/')) (cleanStack path) :=
  stackOk_foldl _ _ _ (stackOk_nil _) (not_mem_of_mem_split '/' path)

theorem foldl_cleanStep_dotdot (n : Nat) : ∀ m : Nat,
    (List.replicate n ['.', '.']).foldl (cleanStep false) (List.replicate m ['.', '.'])
      = List.replicate (n + m) ['.', '.'] := by
  induction n with
  | zero => intro m; simp
  | succ k ih =>
    intro m
    rw [List.replicate_succ, List.foldl_cons]
    have hstep : cleanStep false (List.replicate m ['.', '.']) ['.', '.']
        = List.replicate (m + 1) ['.', '.'] := by
      cases m with
      | zero => simp [cleanStep]
      | succ j => simp [cleanStep, List.replicate_succ]
    rw [hstep, ih (m + 1)]
    congr 1
    omega

/-- Cleaning the kept elements again, from the first to the last, keeps them
all. -/
theorem foldl_cleanStep_replay (rooted : Bool) (stack : List GoString)
    (h : StackOk rooted stack) :
    stack.reverse.foldl (cleanStep rooted) [] = stack := by
  obtain ⟨ords, n, hst, hords, hn⟩ := h
  subst hst
  rw [List.reverse_append, List.reverse_replicate, List.foldl_append]
  have hdd : (List.replicate n ['.', '.']).foldl (cleanStep rooted) []
      = List.replicate n ['.', '.'] := by
    cases rooted with
    | true => rw [hn rfl]; rfl
    | false =>
      have := foldl_cleanStep_dotdot n 0
      simpa using this
  rw [hdd, foldl_cleanStep_ordinary rooted ords.reverse _
    (fun e he => (hords e (List.mem_reverse.mp he)).1)]
  simp

theorem stackOk_free (rooted : Bool) (stack : List GoString) (h : StackOk rooted stack) :
    ∀ e ∈ stack, e ≠ [] ∧ '/' ∉ e := by
  obtain ⟨ords, n, hst, hords, _⟩ := h
  subst hst
  intro e he
  rcases List.mem_append.mp he with he | he
  · exact ⟨(hords e he).1.1, (hords e he).2⟩
  · rw [List.eq_of_mem_replicate he]
    exact ⟨by simp, by decide⟩

/-- Appending an ordinary element to a non-empty path: `filepath.Clean` keeps
the elements of the path and then the new element. -/
theorem cleanStack_append (base e : GoString) (hbase : base ≠ []) (he : Ordinary e)
    (hfree : '/' ∉ e) :
    (base ++ '/' :: e).head? = base.head?
      ∧ cleanStack (base ++ '/' :: e) = e :: cleanStack base := by
  have hhead : (base ++ '/' :: e).head? = base.head? := by
    obtain ⟨c, cs, rfl⟩ := List.exists_cons_of_ne_nil hbase
    rfl
  refine ⟨hhead, ?_⟩
  unfold cleanStack
  rw [hhead, split_append, List.foldl_append, split_of_not_mem '/' e hfree]
  simp only [List.foldl_cons, List.foldl_nil]
  exact cleanStep_ordinary _ _ e he

theorem clean_append (base e : GoString) (hbase : base ≠ []) (he : Ordinary e)
    (hfree : '/' ∉ e) :
    clean (base ++ '/' :: e)
      = renderPath (decide (base.head? = some '/')) (e :: cleanStack base) := by
  obtain ⟨hhead, hstack⟩ := cleanStack_append base e hbase he hfree
  have hne : base ++ '/' :: e ≠ [] := by simp
  simp only [clean, hne, if_false, hhead, hstack]

/-- The path built from a non-empty list of kept elements is not empty, is
rooted exactly when asked, and cleans to the same elements. -/
theorem renderPath_facts (rooted : Bool) (stack : List GoString) (h : StackOk rooted stack)
    (hne : stack ≠ []) :
    renderPath rooted stack ≠ []
      ∧ decide ((renderPath rooted stack).head? = some '/') = rooted
      ∧ cleanStack (renderPath rooted stack) = stack := by
  have hfree := stackOk_free rooted stack h
  have hrev_ne : stack.reverse ≠ [] := by simpa using hne
  have hrev_free : ∀ e ∈ stack.reverse, '/' ∉ e :=
    fun e he => (hfree e (List.mem_reverse.mp he)).2
  have hsplit := split_join '/' stack.reverse hrev_ne hrev_free
  obtain ⟨top, below, hst⟩ := List.exists_cons_of_ne_nil hne
  obtain ⟨first, others, hrev⟩ := List.exists_cons_of_ne_nil hrev_ne
  have hfirst : first ≠ [] ∧ '/' ∉ first :=
    hfree first (List.mem_reverse.mp (by rw [hrev]; simp))
  obtain ⟨c, cs, hc⟩ := List.exists_cons_of_ne_nil hfirst.1
  have hcslash : c ≠ '/' := by
    intro e
    exact hfirst.2 (by rw [hc, e]; simp)
  have hjhead : (join '/' stack.reverse).head? = some c := by
    rw [hrev, join_head '/' first others hfirst.1, hc]
    rfl
  have hreplay := foldl_cleanStep_replay rooted stack h
  cases rooted with
  | true =>
    have hr : renderPath true stack = '/' :: join '/' stack.reverse := by
      rw [hst]; rfl
    refine ⟨by rw [hr]; simp, by rw [hr]; simp, ?_⟩
    rw [hr]
    unfold cleanStack
    have hs : split '/' ('/' :: join '/' stack.reverse) = [] :: stack.reverse := by
      simp [split, hsplit]
    rw [hs]
    simp only [List.head?_cons, decide_True, List.foldl_cons]
    have h0 : cleanStep true [] [] = [] := by simp [cleanStep]
    rw [h0]
    exact hreplay
  | false =>
    have hr : renderPath false stack = join '/' stack.reverse := by
      rw [hst]; rfl
    have hnotroot : decide ((join '/' stack.reverse).head? = some '/') = false := by
      rw [hjhead]
      simp [hcslash]
    refine ⟨?_, by rw [hr]; exact hnotroot, ?_⟩
    · rw [hr]
      intro e
      rw [e] at hjhead
      simp at hjhead
    · rw [hr]
      unfold cleanStack
      rw [hnotroot, hsplit]
      exact hreplay

theorem renderPath_push (rooted : Bool) (stack : List GoString) (e : GoString)
    (hne : stack ≠ []) :
    renderPath rooted (e :: stack) = renderPath rooted stack ++ '/' :: e := by
  obtain ⟨top, below, hst⟩ := List.exists_cons_of_ne_nil hne
  have hrev_ne : stack.reverse ≠ [] := by simpa using hne
  have hj := join_append_singleton '/' stack.reverse hrev_ne e
  have hl : renderPath rooted (e :: stack)
      = if rooted = true then '/' :: join '/' (stack.reverse ++ [e])
        else join '/' (stack.reverse ++ [e]) := by
    simp [renderPath]
  have hr : renderPath rooted stack
      = if rooted = true then '/' :: join '/' stack.reverse else join '/' stack.reverse := by
    rw [hst]; rfl
  rw [hl, hr, hj]
  cases rooted <;> simp

theorem renderPath_injective (rooted : Bool) (s1 s2 : List GoString)
    (h1 : StackOk rooted s1) (h2 : StackOk rooted s2) (hne1 : s1 ≠ []) (hne2 : s2 ≠ [])
    (h : renderPath rooted s1 = renderPath rooted s2) : s1 = s2 := by
  have e1 := (renderPath_facts rooted s1 h1 hne1).2.2
  have e2 := (renderPath_facts rooted s2 h2 hne2).2.2
  rw [← e1, ← e2, h]

/-! ## The elements of the partition path -/

theorem formatNat_injective (a b : Nat) (h : formatNat a = formatNat b) : a = b := by
  have ha := parseDigits_formatNat a
  rw [h, parseDigits_formatNat b] at ha
  exact (Option.some.inj ha).symm

theorem formatNat_head_digit (n : Nat) :
    ∃ d cs, d < 10 ∧ formatNat n = digitChar d :: cs := by
  obtain ⟨c, cs, hcs⟩ := List.exists_cons_of_ne_nil (formatNat_ne_nil n)
  obtain ⟨d, hd, hc⟩ := formatNat_digits n c (by rw [hcs]; simp)
  exact ⟨d, cs, hd, by rw [hcs, hc]⟩

theorem formatInt_injective (a b : Int) (h : formatInt a = formatInt b) : a = b := by
  unfold formatInt at h
  by_cases ha : a < 0 <;> by_cases hb : b < 0
  · simp only [ha, hb, if_true, List.cons.injEq, true_and] at h
    have := formatNat_injective _ _ h
    omega
  · simp only [ha, hb, if_true, if_false] at h
    obtain ⟨d, cs, _, hd⟩ := formatNat_head_digit b.natAbs
    rw [hd] at h
    exact absurd (List.cons.inj h).1.symm (digitChar_ne d '-' (by decide))
  · simp only [ha, hb, if_true, if_false] at h
    obtain ⟨d, cs, _, hd⟩ := formatNat_head_digit a.natAbs
    rw [hd] at h
    exact absurd (List.cons.inj h).1 (digitChar_ne d '-' (by decide))
  · simp only [ha, hb, if_false] at h
    have := formatNat_injective _ _ h
    omega

theorem formatInt_ne_nil (n : Int) : formatInt n ≠ [] := by
  unfold formatInt
  split
  · simp
  · exact formatNat_ne_nil _

theorem not_mem_formatNat (n : Nat) (c : Char) (hc : digitVal c = none) : c ∉ formatNat n := by
  intro hmem
  obtain ⟨d, _, rfl⟩ := formatNat_digits n c hmem
  exact digitChar_ne d _ hc rfl

/-- A rendered integer is an ordinary path element without separator. -/
theorem formatInt_element (n : Int) : Ordinary (formatInt n) ∧ '/' ∉ formatInt n := by
  refine ⟨?_, not_mem_formatInt n '/' (by decide) (by decide)⟩
  obtain ⟨c, cs, hcs⟩ := List.exists_cons_of_ne_nil (formatInt_ne_nil n)
  have hmem : c ∈ formatInt n := by rw [hcs]; simp
  refine ordinary_of_mem _ c hmem ?_
  intro e
  rw [e] at hmem
  exact not_mem_formatInt n '.' (by decide) (by decide) hmem

/-- The file name of a day is an ordinary path element without separator. -/
theorem dayFile_element (d : Int) :
    Ordinary (formatInt d ++ ".csv".toList) ∧ '/' ∉ formatInt d ++ ".csv".toList := by
  refine ⟨ordinary_of_mem _ 'c' (by simp) (by decide), ?_⟩
  intro hmem
  rcases List.mem_append.mp hmem with h | h
  · exact not_mem_formatInt d '/' (by decide) (by decide) h
  · revert h; decide

theorem monthString_valid (m : Nat) (h1 : 1 ≤ m) (h2 : m ≤ 12) :
    longMonthNames[m - 1]? = some (monthString m) := by
  interval_cases m <;> decide

theorem monthString_invalid (m : Nat) (h : ¬ (1 ≤ m ∧ m ≤ 12)) :
    monthString m = "%!Month(".toList ++ formatNat m ++ [')'] := by
  simp only [monthString, h, if_false]

/-- The name of a month is an ordinary path element without separator. -/
theorem monthString_element (m : Nat) : Ordinary (monthString m) ∧ '/' ∉ monthString m := by
  by_cases h : 1 ≤ m ∧ m ≤ 12
  · obtain ⟨h1, h2⟩ := h
    unfold Ordinary
    interval_cases m <;> decide
  · rw [monthString_invalid m h]
    refine ⟨ordinary_of_mem _ '%' (by simp) (by decide), ?_⟩
    intro hmem
    rcases List.mem_append.mp hmem with h' | h'
    · rcases List.mem_append.mp h' with h'' | h''
      · revert h''; decide
      · exact not_mem_formatNat m '/' (by decide) h''
    · revert h'; decide

theorem monthString_injective (a b : Nat) (h : monthString a = monthString b) : a = b := by
  by_cases ha : 1 ≤ a ∧ a ≤ 12 <;> by_cases hb : 1 ≤ b ∧ b ≤ 12
  · obtain ⟨ha1, ha2⟩ := ha
    obtain ⟨hb1, hb2⟩ := hb
    interval_cases a <;> interval_cases b <;> first | rfl | exact absurd h (by decide)
  · rw [monthString_invalid b hb] at h
    obtain ⟨ha1, ha2⟩ := ha
    have hhead : (monthString a).head? ≠ some '%' := by
      interval_cases a <;> decide
    rw [h] at hhead
    exact absurd rfl hhead
  · rw [monthString_invalid a ha] at h
    obtain ⟨hb1, hb2⟩ := hb
    have hhead : (monthString b).head? ≠ some '%' := by
      interval_cases b <;> decide
    rw [← h] at hhead
    exact absurd rfl hhead
  · rw [monthString_invalid a ha, monthString_invalid b hb] at h
    have h1 := List.append_cancel_right h
    exact formatNat_injective a b (List.append_cancel_left h1)

/-- The partition file in terms of the elements kept by `filepath.Clean`: the
elements of the root, then the year, the month name and the file of the day. -/
theorem partitionFile_eq (fileDir : GoString) (t : Timestamp) (hdir : fileDir ≠ []) :
    partitionFile fileDir t
        = renderPath (decide (fileDir.head? = some '/'))
            ((formatInt t.day ++ ".csv".toList) :: monthString t.month :: formatInt t.year
              :: cleanStack fileDir)
      ∧ StackOk (decide (fileDir.head? = some '/'))
          ((formatInt t.day ++ ".csv".toList) :: monthString t.month :: formatInt t.year
              :: cleanStack fileDir) := by
  obtain ⟨hy, hyf⟩ := formatInt_element t.year
  obtain ⟨hm, hmf⟩ := monthString_element t.month
  obtain ⟨hf, hff⟩ := dayFile_element t.day
  have hbase1 : fileDir ++ '/' :: formatInt t.year ≠ [] := by simp
  obtain ⟨hhead1, hstack1⟩ := cleanStack_append fileDir (formatInt t.year) hdir hy hyf
  have hok0 := stackOk_cleanStack fileDir
  have hok2 := stackOk_push _ _ _ (stackOk_push _ _ _ hok0 hy hyf) hm hmf
  have hok3 := stackOk_push _ _ _ hok2 hf hff
  have hdir_eq : partitionDir fileDir t
      = renderPath (decide (fileDir.head? = some '/'))
          (monthString t.month :: formatInt t.year :: cleanStack fileDir) := by
    have hjoin : join '/' [fileDir, formatInt t.year, monthString t.month]
        = (fileDir ++ '/' :: formatInt t.year) ++ '/' :: monthString t.month := by
      simp [join]
    simp only [partitionDir, filepathJoin, hdir, if_false]
    rw [hjoin, clean_append _ _ hbase1 hm hmf, hhead1, hstack1]
  obtain ⟨hne, hroot, hstack⟩ := renderPath_facts _ _ hok2 (by simp)
  refine ⟨?_, hok3⟩
  have hjoin2 : join '/' [partitionDir fileDir t, formatInt t.day ++ ".csv".toList]
      = partitionDir fileDir t ++ '/' :: (formatInt t.day ++ ".csv".toList) := by
    simp [join]
  have hne' : partitionDir fileDir t ≠ [] := by rw [hdir_eq]; exact hne
  simp only [partitionFile, filepathJoin, hne', if_false]
  rw [hjoin2, clean_append _ _ hne' hf hff, hdir_eq, hroot, hstack]

/-! ## The partition of a day -/

/-- C15 (partition path layout).  For a non-empty root and a timestamp with
year `y`, month `m` and day `d`, the partition file is the path
`root/<y>/<month>/<d>.csv` in the clean form `filepath.Join` gives to every
path: it is the cleaned root followed by `/<y>/<month>/<d>.csv` (for a root that
does not clean to `.` or `/`), where `<y>` and `<d>` are plain decimal
renderings and `<month>` is the entry of `m` in the table of English month
names. -/
theorem partition_path_layout (fileDir : GoString) (t : Timestamp) (hdir : fileDir ≠ []) :
    partitionFile fileDir t
        = clean (fileDir ++ '/' :: (formatInt t.year ++ '/' :: (monthString t.month
            ++ '/' :: (formatInt t.day ++ ".csv".toList))))
      ∧ (clean fileDir ≠ ['.'] → clean fileDir ≠ ['/'] →
          partitionFile fileDir t
            = clean fileDir ++ '/' :: (formatInt t.year ++ '/' :: (monthString t.month
                ++ '/' :: (formatInt t.day ++ ".csv".toList))))
      ∧ (1 ≤ t.month → t.month ≤ 12 →
          longMonthNames[t.month - 1]? = some (monthString t.month)) := by
  obtain ⟨hy, hyf⟩ := formatInt_element t.year
  obtain ⟨hm, hmf⟩ := monthString_element t.month
  obtain ⟨hf, hff⟩ := dayFile_element t.day
  obtain ⟨hfile, _⟩ := partitionFile_eq fileDir t hdir
  refine ⟨?_, ?_, monthString_valid t.month⟩
  · have hshape : fileDir ++ '/' :: (formatInt t.year ++ '/' :: (monthString t.month
          ++ '/' :: (formatInt t.day ++ ".csv".toList)))
        = ((fileDir ++ '/' :: formatInt t.year) ++ '/' :: monthString t.month)
            ++ '/' :: (formatInt t.day ++ ".csv".toList) := by
      simp
    have hb1 : fileDir ++ '/' :: formatInt t.year ≠ [] := by simp
    have hb2 : (fileDir ++ '/' :: formatInt t.year) ++ '/' :: monthString t.month ≠ [] := by
      simp
    obtain ⟨hh1, hs1⟩ := cleanStack_append fileDir (formatInt t.year) hdir hy hyf
    obtain ⟨hh2, hs2⟩ := cleanStack_append _ (monthString t.month) hb1 hm hmf
    rw [hshape, clean_append _ _ hb2 hf hff, hh2, hh1, hs2, hs1]
    exact hfile
  · intro hdot hroot
    have hclean : clean fileDir
        = renderPath (decide (fileDir.head? = some '/')) (cleanStack fileDir) := by
      simp only [clean, hdir, if_false]
    have hne : cleanStack fileDir ≠ [] := by
      intro hnil
      rw [hclean, hnil] at hdot hroot
      cases hr : decide (fileDir.head? = some '/') with
      | true => rw [hr] at hroot; exact hroot rfl
      | false => rw [hr] at hdot; exact hdot rfl
    rw [hfile, renderPath_push _ _ _ (by simp), renderPath_push _ _ _ (by simp),
      renderPath_push _ _ _ hne, hclean]
    simp

/-- C15 at the default root `./logs/helprob` on 4 November 2026: the partition
file is `logs/helprob/2026/November/4.csv`. -/
theorem partition_path_layout_witness :
    partitionFile "./logs/helprob".toList (Timestamp.mk 2026 11 4 10 0 0)
        = "logs/helprob/2026/November/4.csv".toList
      ∧ clean "./logs/helprob".toList = "logs/helprob".toList
      ∧ monthString 11 = "November".toList :=
  have h := partition_path_layout "./logs/helprob".toList (Timestamp.mk 2026 11 4 10 0 0)
    (by decide)
  ⟨(h.2.1 (by decide) (by decide)).trans (by decide), by decide,
    (Option.some.inj ((h.2.2 (by decide) (by decide)).symm.trans (by decide)))⟩

/-- C16 (the partition follows the calendar day).  For a non-empty root, two
timestamps resolve to the same partition file exactly when they have the same
year, month and day. -/
theorem partition_identity (fileDir : GoString) (t1 t2 : Timestamp) (hdir : fileDir ≠ []) :
    partitionFile fileDir t1 = partitionFile fileDir t2
      ↔ (t1.year = t2.year ∧ t1.month = t2.month ∧ t1.day = t2.day) := by
  constructor
  · intro h
    obtain ⟨e1, ok1⟩ := partitionFile_eq fileDir t1 hdir
    obtain ⟨e2, ok2⟩ := partitionFile_eq fileDir t2 hdir
    rw [e1, e2] at h
    have hst := renderPath_injective _ _ _ ok1 ok2 (by simp) (by simp) h
    simp only [List.cons.injEq] at hst
    obtain ⟨hf, hm, hy, _⟩ := hst
    exact ⟨formatInt_injective _ _ hy, monthString_injective _ _ hm,
      formatInt_injective _ _ (List.append_cancel_right hf)⟩
  · rintro ⟨hy, hm, hd⟩
    simp only [partitionFile, partitionDir, hy, hm, hd]

/-- C16 across midnight: ten seconds before and ten seconds after the end of
4 November 2026 the partition files differ; two times of 4 November share
theirs. -/
theorem partition_identity_witness :
    partitionFile "./logs/helprob".toList (Timestamp.mk 2026 11 4 23 59 50)
        ≠ partitionFile "./logs/helprob".toList (Timestamp.mk 2026 11 5 0 0 10)
      ∧ partitionFile "./logs/helprob".toList (Timestamp.mk 2026 11 4 9 30 0)
        = partitionFile "./logs/helprob".toList (Timestamp.mk 2026 11 4 23 59 50) :=
  ⟨fun h => absurd ((partition_identity "./logs/helprob".toList
        (Timestamp.mk 2026 11 4 23 59 50) (Timestamp.mk 2026 11 5 0 0 10) (by decide)).mp h).2.2
      (by decide),
    (partition_identity "./logs/helprob".toList (Timestamp.mk 2026 11 4 9 30 0)
      (Timestamp.mk 2026 11 4 23 59 50) (by decide)).mpr ⟨rfl, rfl, rfl⟩⟩

/-- C20 at the partition content `"ua-xy",5` and the counter `ua-x -> 1`: the
merged line `"ua-x",6` is shorter than the prior content, and the file holds
exactly that line afterwards. -/
theorem file_reflects_merged_lines_witness :
    ("\"ua-x\",6".toList.length < "\"ua-xy\",5".toList.length)
      ∧ ∃ d calls,
        flushCycle (FsAnswers.mk true true true true true true) "./logs/helprob".toList
            (Timestamp.mk 2026 11 4 10 0 0)
            (Disk.mk [] [("logs/helprob/2026/November/4.csv".toList, "\"ua-xy\",5".toList)])
            [("ua-x".toList, 1)]
          = some (CycleResult.mk [] (Outcome.written (join '\n' ["\"ua-x\",6".toList])) d calls)
        ∧ d.read (partitionFile "./logs/helprob".toList (Timestamp.mk 2026 11 4 10 0 0))
          = some (join '\n' ["\"ua-x\",6".toList]) :=
  ⟨by decide,
    file_reflects_merged_lines (FsAnswers.mk true true true true true true)
      "./logs/helprob".toList (Timestamp.mk 2026 11 4 10 0 0)
      (Disk.mk [] [("logs/helprob/2026/November/4.csv".toList, "\"ua-xy\",5".toList)])
      [("ua-x".toList, 1)] ["\"ua-x\",6".toList] (by decide) rfl rfl rfl rfl rfl rfl
      (by decide)⟩

/-! ## More on the merge loop -/

theorem innerLoop_length (k : GoString) (v : Int) (data : List GoString) :
    ∀ (data' : List GoString) (c : Bool), innerLoop k v data = some (data', c) →
      data'.length = data.length := by
  induction data with
  | nil =>
    intro data' c h
    simp only [innerLoop, Option.some.injEq, Prod.mk.injEq] at h
    rw [← h.1]
  | cons line rest ih =>
    intro data' c h
    unfold innerLoop at h
    split at h
    · split at h
      · exact Option.noConfusion h
      · split at h
        · split at h
          · exact Option.noConfusion h
          · rename_i rest' c' hrest
            simp only [Option.some.injEq, Prod.mk.injEq] at h
            rw [← h.1, List.length_cons, List.length_cons, ih rest' c' hrest]
        · simp only [Option.some.injEq, Prod.mk.injEq] at h
          rw [← h.1, List.length_cons, List.length_cons]
    · split at h
      · exact Option.noConfusion h
      · rename_i rest' c' hrest
        simp only [Option.some.injEq, Prod.mk.injEq] at h
        rw [← h.1, List.length_cons, List.length_cons, ih rest' c' hrest]

theorem mergeLoop_length (entries : List (GoString × Int)) :
    ∀ (data : List GoString) (closed : Bool) (data' : List GoString) (c : Bool),
      mergeLoop entries data closed = some (data', c) → data'.length = data.length := by
  induction entries with
  | nil =>
    intro data closed data' c h
    simp only [mergeLoop, Option.some.injEq, Prod.mk.injEq] at h
    rw [← h.1]
  | cons e rest ih =>
    intro data closed data' c h
    obtain ⟨k, v⟩ := e
    unfold mergeLoop at h
    split at h
    · exact Option.noConfusion h
    · rename_i data1 c1 h1
      rw [ih data1 _ data' c h, innerLoop_length k v data data1 c1 h1]

theorem innerLoop_all_miss (k : GoString) (v : Int) (data : List GoString)
    (h : ∀ line ∈ data, contains line k = false) :
    innerLoop k v data = some (List.replicate data.length (sprintf k v), false) := by
  induction data with
  | nil => rfl
  | cons line rest ih =>
    rw [innerLoop_miss k v line rest (h line (by simp)),
      ih (fun l hl => h l (List.mem_cons_of_mem _ hl))]
    rfl

theorem innerLoop_first_hit (k : GoString) (v c : Int) (pre : List GoString)
    (line value : GoString) (post : List GoString)
    (hpre : ∀ l ∈ pre, contains l k = false) (hline : contains line k = true)
    (hsplit : (split ',' line)[1]? = some value) (hparse : atoi value = some c) :
    innerLoop k v (pre ++ line :: post)
      = some (List.replicate pre.length (sprintf k v)
          ++ sprintf k (wrapInt (c + v)) :: post, false) := by
  induction pre with
  | nil =>
    simpa using innerLoop_hit k v c line value post hline hsplit hparse
  | cons l rest ih =>
    rw [List.cons_append, innerLoop_miss k v l _ (hpre l (by simp)),
      ih (fun x hx => hpre x (List.mem_cons_of_mem _ hx))]
    rfl

theorem exists_first_hit (k : GoString) (data : List GoString)
    (h : ¬ ∀ line ∈ data, contains line k = false) :
    ∃ pre line post, data = pre ++ line :: post
      ∧ (∀ l ∈ pre, contains l k = false) ∧ contains line k = true := by
  induction data with
  | nil => exact absurd (by simp) h
  | cons line rest ih =>
    by_cases hl : contains line k = true
    · exact ⟨[], line, rest, rfl, by simp, hl⟩
    · have hl' : contains line k = false := by simpa using hl
      have hrest : ¬ ∀ l ∈ rest, contains l k = false := by
        intro hall
        apply h
        intro x hx
        rcases List.mem_cons.mp hx with e | e
        · rw [e]; exact hl'
        · exact hall x e
      obtain ⟨pre, l, post, hd, hpre, hhit⟩ := ih hrest
      refine ⟨line :: pre, l, post, by rw [hd]; rfl, ?_, hhit⟩
      intro x hx
      rcases List.mem_cons.mp hx with e | e
      · rw [e]; exact hl'
      · exact hpre x e

/-- C25 (the merge keeps the number of lines).  Whenever the merge loop
completes on the content `b` read from the partition file, the lines handed to
`strings.Join` are exactly as many as `strings.Split(b, "\n")` produced; an
empty file gives one (empty) line. -/
theorem merge_keeps_line_count (entries : List (GoString × Int)) (b : GoString)
    (data' : List GoString) (closed : Bool)
    (h : mergeLoop entries (split '\n' b) false = some (data', closed)) :
    data'.length = (split '\n' b).length ∧ (split '\n' []).length = 1 :=
  ⟨mergeLoop_length entries _ _ data' closed h, rfl⟩

/-- C25 at the partition content of the two lines `"a",1` and `"b",2` and the
delta `b -> 1`, `c -> 4`: two lines are written. -/
theorem merge_keeps_line_count_witness :
    mergeLoop [("b".toList, 1), ("c".toList, 4)] (split '\n' "\"a\",1\n\"b\",2".toList) false
        = some (["\"c\",4".toList, "\"c\",4".toList], false)
      ∧ ["\"c\",4".toList, "\"c\",4".toList].length
        = (split '\n' "\"a\",1\n\"b\",2".toList).length :=
  ⟨by decide,
    (merge_keeps_line_count [("b".toList, 1), ("c".toList, 4)] "\"a\",1\n\"b\",2".toList
      ["\"c\",4".toList, "\"c\",4".toList] false (by decide)).1⟩

/-- C26 (effect of one delta entry).  When every line of `L` that contains `k`
has a second comma-separated field that `strconv.Atoi` accepts, processing
`(k, v)` completes with the file open and gives lines `L'`, as many as in `L`:
if no line contains `k`, every line of `L'` is `"k",v`; otherwise, for the first
line containing `k`, the lines before it are `"k",v`, that line is `"k",c+v` with
`c` its parsed second field (the sum being the one of Go `int`, the plain sum
when it is in range), and the lines after it are those of `L`. -/
theorem effect_of_one_entry (k : GoString) (v : Int) (L : List GoString)
    (hparse : ∀ line ∈ L, contains line k = true →
      ∃ value c, (split ',' line)[1]? = some value ∧ atoi value = some c) :
    ∃ L', innerLoop k v L = some (L', false) ∧ L'.length = L.length
      ∧ ((∀ line ∈ L, contains line k = false) →
          L' = List.replicate L.length (sprintf k v))
      ∧ (∀ pre line post, L = pre ++ line :: post →
          (∀ l ∈ pre, contains l k = false) → contains line k = true →
          ∃ value c, (split ',' line)[1]? = some value ∧ atoi value = some c
            ∧ L' = List.replicate pre.length (sprintf k v)
                ++ sprintf k (wrapInt (c + v)) :: post
            ∧ (minInt ≤ c + v → c + v ≤ maxInt →
                L' = List.replicate pre.length (sprintf k v)
                  ++ sprintf k (c + v) :: post)) := by
  have hdecomp : ∀ pre line post, L = pre ++ line :: post →
      (∀ l ∈ pre, contains l k = false) → contains line k = true →
      ∃ value c, (split ',' line)[1]? = some value ∧ atoi value = some c
        ∧ innerLoop k v L = some (List.replicate pre.length (sprintf k v)
            ++ sprintf k (wrapInt (c + v)) :: post, false) := by
    intro pre line post hL hpre hline
    obtain ⟨value, c, hs, ha⟩ := hparse line (by rw [hL]; simp) hline
    exact ⟨value, c, hs, ha, by
      rw [hL]; exact innerLoop_first_hit k v c pre line value post hpre hline hs ha⟩
  have hex : ∃ L', innerLoop k v L = some (L', false) := by
    by_cases hall : ∀ line ∈ L, contains line k = false
    · exact ⟨_, innerLoop_all_miss k v L hall⟩
    · obtain ⟨pre, line, post, hL, hpre, hline⟩ := exists_first_hit k L hall
      obtain ⟨value, c, _, _, hrun⟩ := hdecomp pre line post hL hpre hline
      exact ⟨_, hrun⟩
  obtain ⟨L', hL'⟩ := hex
  refine ⟨L', hL', innerLoop_length k v L L' false hL', ?_, ?_⟩
  · intro hall
    have h := innerLoop_all_miss k v L hall
    rw [hL'] at h
    exact (Prod.mk.inj (Option.some.inj h)).1
  · intro pre line post hL hpre hline
    obtain ⟨value, c, hs, ha, hrun⟩ := hdecomp pre line post hL hpre hline
    rw [hL'] at hrun
    have heq := (Prod.mk.inj (Option.some.inj hrun)).1
    refine ⟨value, c, hs, ha, heq, ?_⟩
    intro hlo hhi
    rw [heq, wrapInt_of_range (c + v) hlo hhi]

/-- C26 on the lines `"a",1`, `"b",2`, `"c",3` with the entry `b -> 5`: the line
before the hit becomes `"b",5`, the hit becomes `"b",7`, the line after is kept. -/
theorem effect_of_one_entry_witness :
    innerLoop "b".toList 5 ["\"a\",1".toList, "\"b\",2".toList, "\"c\",3".toList]
      = some (["\"b\",5".toList, "\"b\",7".toList, "\"c\",3".toList], false) := by
  obtain ⟨L', hrun, _, _, hhit⟩ := effect_of_one_entry "b".toList 5
    ["\"a\",1".toList, "\"b\",2".toList, "\"c\",3".toList] (by
      intro line hline hc
      simp only [List.mem_cons, List.mem_singleton, List.not_mem_nil, or_false] at hline
      rcases hline with rfl | rfl | rfl
      · exact absurd hc (by decide)
      · exact ⟨"2".toList, 2, by decide, by decide⟩
      · exact absurd hc (by decide))
  obtain ⟨value, c, hs, ha, heq, _⟩ := hhit ["\"a\",1".toList] "\"b\",2".toList
    ["\"c\",3".toList] rfl (by decide) (by decide)
  have hv : value = "2".toList := by
    have : (split ',' "\"b\",2".toList)[1]? = some "2".toList := by decide
    rw [this] at hs
    exact (Option.some.inj hs).symm
  have hc : c = 2 := by
    rw [hv] at ha
    have : atoi "2".toList = some 2 := by decide
    rw [this] at ha
    exact (Option.some.inj ha).symm
  rw [hrun, heq, hc]
  decide

/-- C27 (round trip of a record line).  For a key without comma and a count in
the range of `int`, the line `"k",n` splits on the comma into exactly the two
fields `"k"` and the decimal rendering of `n`, and `strconv.Atoi` on the second
field succeeds with `n`. -/
theorem record_line_round_trip (k : GoString) (n : Int) (hc : ',' ∉ k)
    (hlo : minInt ≤ n) (hhi : n ≤ maxInt) :
    split ',' (sprintf k n) = ['"' :: (k ++ ['"']), formatInt n]
      ∧ (split ',' (sprintf k n)).length = 2
      ∧ ∃ value, (split ',' (sprintf k n))[1]? = some value ∧ atoi value = some n := by
  have hs := split_comma_sprintf k n hc
  refine ⟨hs, by rw [hs]; rfl, formatInt n, by rw [hs]; rfl, atoi_formatInt n hlo hhi⟩

/-- C27 at the key `ua-x` and the counts 42 and -7. -/
theorem record_line_round_trip_witness :
    split ',' (sprintf "ua-x".toList 42) = ["\"ua-x\"".toList, "42".toList]
      ∧ (∃ value, (split ',' (sprintf "ua-x".toList (-7)))[1]? = some value
          ∧ atoi value = some (-7)) :=
  ⟨(record_line_round_trip "ua-x".toList 42 (by decide) (by decide) (by decide)).1.trans
      (by decide),
    (record_line_round_trip "ua-x".toList (-7) (by decide) (by decide) (by decide)).2.2⟩

/-! ## The environment and the classifier -/

theorem osGetenv_unset (environ : Environ) (key : GoString)
    (h : ∀ e ∈ environ, e.1 ≠ key) : osGetenv environ key = [] := by
  induction environ with
  | nil => rfl
  | cons e rest ih =>
    obtain ⟨k, v⟩ := e
    have hk : k ≠ key := h (k, v) (by simp)
    simp only [osGetenv, hk, if_false]
    exact ih (fun e he => h e (List.mem_cons_of_mem _ he))

theorem flushLoop_not_returnedNil (fileDir : GoString) (ticks : List Tick) :
    ∀ w : World, (flushLoop fileDir ticks w).ended ≠ LoopEnd.returnedNil := by
  induction ticks with
  | nil => intro w; simp [flushLoop]
  | cons t ts ih =>
    intro w
    unfold flushLoop
    simp only
    split
    · simp
    · split
      · simp
      · exact ih _

/-- C30 (`getEnv` and its fallback).  `getEnv` returns the value of the variable
when that value is not empty, and the fallback when the variable is unset or
set to the empty string; with a non-empty fallback the result is never empty;
so in `writeStatsToFile` the root is never empty and the function never takes
the early return of line 133, in any environment and for any deliveries. -/
theorem getEnv_fallback (environ : Environ) (key fallback : GoString) :
    (osGetenv environ key ≠ [] → getEnv environ key fallback = osGetenv environ key)
      ∧ (osGetenv environ key = [] → getEnv environ key fallback = fallback)
      ∧ ((∀ e ∈ environ, e.1 ≠ key) → getEnv environ key fallback = fallback)
      ∧ (fallback ≠ [] → getEnv environ key fallback ≠ [])
      ∧ getEnv environ "LOG_FILE_DIR".toList "./logs/helprob".toList ≠ []
      ∧ (∀ (ticks : List Tick) (w : World),
          (writeStatsToFile environ ticks w).ended ≠ LoopEnd.returnedNil) := by
  have h1 : osGetenv environ key ≠ [] → getEnv environ key fallback = osGetenv environ key := by
    intro h
    simp only [getEnv, h, if_false]
  have h2 : osGetenv environ key = [] → getEnv environ key fallback = fallback := by
    intro h
    simp only [getEnv, h, if_true]
  have h4 : ∀ (env' : Environ) (key' fb : GoString), fb ≠ [] → getEnv env' key' fb ≠ [] := by
    intro env' key' fb hfb
    unfold getEnv
    simp only
    split
    · exact hfb
    · assumption
  have h5 : getEnv environ "LOG_FILE_DIR".toList "./logs/helprob".toList ≠ [] :=
    h4 environ _ _ (by decide)
  refine ⟨h1, h2, fun h => h2 (osGetenv_unset environ key h), h4 environ key fallback, h5, ?_⟩
  intro ticks w
  simp only [writeStatsToFile, writeStatsToFileFrom, h5, if_false]
  exact flushLoop_not_returnedNil _ ticks w

/-- C24 (which requests are counted).  The handler counts the request exactly
when `agents.IsCrawler` answers `false`: for a user agent classified as a
crawler the counter is left as it is, and for any other user agent the sanitized
user agent is recorded (on the branch that logs `crawler detected`).  With a
classifier that knows `Googlebot`, a request of `Googlebot/2.1` is not counted
and a request of `Mozilla/5.0` is. -/
theorem counts_requests_not_classified_as_crawler :
    (∀ (isCrawler : GoString → Bool) (stats : Stats) (ua : GoString),
        (isCrawler ua = true → countRequest isCrawler stats ua = stats)
          ∧ (isCrawler ua = false →
              countRequest isCrawler stats ua = record stats (sanitize ua)))
      ∧ countRequest (fun ua => contains ua "Googlebot".toList) [] "Googlebot/2.1".toList = []
      ∧ countRequest (fun ua => contains ua "Googlebot".toList) [] "Mozilla/5.0".toList
          = [("Mozilla/5.0".toList, 1)] := by
  refine ⟨?_, by decide, by decide⟩
  intro isCrawler stats ua
  constructor
  · intro h
    simp [countRequest, h]
  · intro h
    simp [countRequest, h]

/-! ## Reachable counters -/

theorem mem_mapSet (stats : Stats) (k : GoString) (c : Int) :
    ∀ e ∈ mapSet stats k c, e = (k, c) ∨ e ∈ stats := by
  induction stats with
  | nil =>
    intro e he
    simp only [mapSet, List.mem_singleton] at he
    exact Or.inl he
  | cons x rest ih =>
    obtain ⟨k', c'⟩ := x
    intro e he
    unfold mapSet at he
    split at he
    · rcases List.mem_cons.mp he with h | h
      · exact Or.inl h
      · exact Or.inr (List.mem_cons_of_mem _ h)
    · rcases List.mem_cons.mp he with h | h
      · exact Or.inr (by rw [h]; simp)
      · rcases ih e h with h' | h'
        · exact Or.inl h'
        · exact Or.inr (List.mem_cons_of_mem _ h')

theorem mem_of_mapGet (stats : Stats) (k : GoString) (c : Int) (h : mapGet stats k = some c) :
    (k, c) ∈ stats := by
  induction stats with
  | nil => simp [mapGet] at h
  | cons x rest ih =>
    obtain ⟨k', c'⟩ := x
    unfold mapGet at h
    split at h
    · rename_i hk
      simp only [Option.some.injEq] at h
      rw [hk, h]
      simp
    · exact List.mem_cons_of_mem _ (ih h)

theorem countsWithin_record (n : Int) (stats : Stats) (k : GoString)
    (h : CountsWithin n stats) (hn0 : 0 ≤ n) (hn : n < maxInt) :
    CountsWithin (n + 1) (record stats k) := by
  have hmax : maxInt = 9223372036854775807 := rfl
  have hmin : minInt = -9223372036854775808 := rfl
  intro e he
  unfold record at he
  split at he
  · rcases mem_mapSet stats k 1 e he with h' | h'
    · rw [h']; exact ⟨le_refl _, by show (1 : Int) ≤ n + 1; omega⟩
    · exact ⟨(h e h').1, by have := (h e h').2; omega⟩
  · rename_i c hc
    have hcb := h (k, c) (mem_of_mapGet stats k c hc)
    simp only at hcb
    rcases mem_mapSet stats k _ e he with h' | h'
    · rw [h', wrapInt_of_range (c + 1) (by omega) (by omega)]
      exact ⟨by show (1 : Int) ≤ c + 1; omega, by show c + 1 ≤ n + 1; omega⟩
    · exact ⟨(h e h').1, by have := (h e h').2; omega⟩

theorem countsWithin_runOps (ops : List CounterOp) :
    ∀ (n : Int) (stats : Stats), CountsWithin n stats → 0 ≤ n →
      n + (ops.length : Int) ≤ maxInt →
      CountsWithin (n + (ops.length : Int)) (runOps ops stats) := by
  induction ops with
  | nil =>
    intro n stats h _ _
    simpa [runOps] using h
  | cons op rest ih =>
    intro n stats h hn0 hlen
    have hlen' : n + 1 + (rest.length : Int) ≤ maxInt := by
      simp only [List.length_cons, Nat.cast_add, Nat.cast_one] at hlen
      omega
    have hstep : CountsWithin (n + 1) (applyOp stats op) := by
      cases op with
      | record k =>
        exact countsWithin_record n stats k h hn0 (by omega)
      | reset =>
        intro e he
        simp [applyOp] at he
    have := ih (n + 1) (applyOp stats op) hstep (by omega) hlen'
    simp only [List.length_cons, Nat.cast_add, Nat.cast_one]
    have heq : n + ((rest.length : Int) + 1) = n + 1 + (rest.length : Int) := by omega
    rw [heq]
    exact this

/-- C21 (counts are positive).  In every counter reached from the empty counter
by a sequence of record operations and resets, every stored count is at least
1; the sequence is taken shorter than `2^63` operations, so that no count leaves
the range of `int`. -/
theorem counts_positive (ops : List CounterOp) (hlen : (ops.length : Int) ≤ maxInt) :
    ∀ e ∈ runOps ops [], 1 ≤ e.2 := by
  have h0 : CountsWithin 0 [] := by
    intro e he
    simp at he
  have := countsWithin_runOps ops 0 [] h0 (le_refl _) (by simpa using hlen)
  intro e he
  exact (this e he).1

/-- C21 on a sequence with two keys and a reset in the middle. -/
theorem counts_positive_witness :
    runOps [CounterOp.record "ua-x".toList, CounterOp.record "ua-x".toList, CounterOp.reset,
        CounterOp.record "ua-y".toList, CounterOp.record "ua-x".toList,
        CounterOp.record "ua-y".toList] []
      = [("ua-y".toList, 2), ("ua-x".toList, 1)]
    ∧ ∀ e ∈ runOps [CounterOp.record "ua-x".toList, CounterOp.record "ua-x".toList,
        CounterOp.reset, CounterOp.record "ua-y".toList, CounterOp.record "ua-x".toList,
        CounterOp.record "ua-y".toList] [], 1 ≤ e.2 :=
  ⟨by decide, counts_positive _ (by decide)⟩

theorem totalCount_mapSet (stats : Stats) (k : GoString) (c : Int) :
    totalCount (mapSet stats k c) = totalCount stats - (mapGet stats k).getD 0 + c := by
  induction stats with
  | nil => simp [mapSet, mapGet, totalCount]
  | cons x rest ih =>
    obtain ⟨k', c'⟩ := x
    by_cases hk : k' = k
    · simp only [mapSet, mapGet, hk, if_true, totalCount, List.map_cons, List.sum_cons,
        Option.getD_some]
      ring
    · simp only [totalCount] at ih
      simp only [mapSet, mapGet, hk, if_false, totalCount, List.map_cons, List.sum_cons, ih]
      omega

theorem totalCount_record (n : Int) (stats : Stats) (k : GoString)
    (h : CountsWithin n stats) (hn : n < maxInt) :
    totalCount (record stats k) = totalCount stats + 1 := by
  have hmax : maxInt = 9223372036854775807 := rfl
  have hmin : minInt = -9223372036854775808 := rfl
  unfold record
  split
  · rename_i hnone
    rw [totalCount_mapSet, hnone]
    simp
  · rename_i c hc
    have hcb := h (k, c) (mem_of_mapGet stats k c hc)
    simp only at hcb
    rw [totalCount_mapSet, hc, wrapInt_of_range (c + 1) (by omega) (by omega)]
    simp only [Option.getD_some]
    omega

theorem keys_mapSet (stats : Stats) (k : GoString) (c : Int) (j : GoString) :
    j ∈ (mapSet stats k c).map Prod.fst ↔ j = k ∨ j ∈ stats.map Prod.fst := by
  induction stats with
  | nil => simp [mapSet]
  | cons x rest ih =>
    obtain ⟨k', c'⟩ := x
    by_cases hk : k' = k
    · simp only [mapSet, hk, if_true, List.map_cons, List.mem_cons]
      tauto
    · simp only [mapSet, hk, if_false, List.map_cons, List.mem_cons, ih]
      tauto

theorem keys_record (stats : Stats) (k j : GoString) :
    j ∈ (record stats k).map Prod.fst ↔ j = k ∨ j ∈ stats.map Prod.fst := by
  unfold record
  split <;> exact keys_mapSet stats k _ j

theorem mapGet_none_iff (stats : Stats) (k : GoString) :
    mapGet stats k = none ↔ k ∉ stats.map Prod.fst := by
  induction stats with
  | nil => simp [mapGet]
  | cons x rest ih =>
    obtain ⟨k', c'⟩ := x
    by_cases hk : k' = k
    · simp [mapGet, hk]
    · have hk' : ¬ k = k' := fun e => hk e.symm
      simp [mapGet, hk, hk', ih]

theorem keys_nodup_mapSet (stats : Stats) (k : GoString) (c : Int)
    (h : (stats.map Prod.fst).Nodup) : ((mapSet stats k c).map Prod.fst).Nodup := by
  induction stats with
  | nil => simp [mapSet]
  | cons x rest ih =>
    obtain ⟨k', c'⟩ := x
    simp only [List.map_cons, List.nodup_cons] at h
    by_cases hk : k' = k
    · simp only [mapSet, hk, if_true, List.map_cons, List.nodup_cons]
      rw [hk] at h
      exact h
    · simp only [mapSet, hk, if_false, List.map_cons, List.nodup_cons]
      refine ⟨?_, ih h.2⟩
      intro hmem
      rcases (keys_mapSet rest k c k').mp hmem with e | e
      · exact hk e
      · exact h.1 e

theorem keys_nodup_record (stats : Stats) (k : GoString)
    (h : (stats.map Prod.fst).Nodup) : ((record stats k).map Prod.fst).Nodup := by
  unfold record
  split <;> exact keys_nodup_mapSet stats k _ h

/-- The counter after the handler has counted the user agents `uas`, starting
from a counter whose counts lie within `n`. -/
theorem record_all_facts (uas : List GoString) :
    ∀ (n : Int) (stats : Stats), CountsWithin n stats → 0 ≤ n →
      n + (uas.length : Int) ≤ maxInt → (stats.map Prod.fst).Nodup →
      totalCount (uas.foldl (fun s ua => record s (sanitize ua)) stats)
          = totalCount stats + (uas.length : Int)
        ∧ (∀ j, j ∈ (uas.foldl (fun s ua => record s (sanitize ua)) stats).map Prod.fst
            ↔ j ∈ uas.map sanitize ∨ j ∈ stats.map Prod.fst)
        ∧ ((uas.foldl (fun s ua => record s (sanitize ua)) stats).map Prod.fst).Nodup := by
  induction uas with
  | nil =>
    intro n stats _ _ _ hnd
    simp [hnd]
  | cons ua rest ih =>
    intro n stats h hn0 hlen hnd
    have hlen' : n + 1 + (rest.length : Int) ≤ maxInt := by
      simp only [List.length_cons, Nat.cast_add, Nat.cast_one] at hlen
      omega
    have hn : n < maxInt := by omega
    obtain ⟨ht, hk, hd⟩ := ih (n + 1) (record stats (sanitize ua))
      (countsWithin_record n stats _ h hn0 hn) (by omega) hlen'
      (keys_nodup_record stats _ hnd)
    simp only [List.foldl_cons, List.length_cons, Nat.cast_add, Nat.cast_one, List.map_cons,
      List.mem_cons]
    refine ⟨?_, ?_, hd⟩
    · rw [ht, totalCount_record n stats _ h hn]
      omega
    · intro j
      rw [hk j, keys_record]
      tauto

/-- C28 (the counter totals the observations).  After the handler has counted
the user agents `uas` from the empty counter, with no reset in between and
fewer than `2^63` of them, the counts add up to the number of observations, the
keys are exactly the sanitized user agents, and no key occurs twice. -/
theorem counter_totals_observations (uas : List GoString)
    (hlen : (uas.length : Int) ≤ maxInt) :
    totalCount (uas.foldl (fun s ua => record s (sanitize ua)) []) = (uas.length : Int)
      ∧ (∀ j, j ∈ (uas.foldl (fun s ua => record s (sanitize ua)) []).map Prod.fst
          ↔ j ∈ uas.map sanitize)
      ∧ ((uas.foldl (fun s ua => record s (sanitize ua)) []).map Prod.fst).Nodup := by
  have h0 : CountsWithin 0 [] := by
    intro e he
    simp at he
  obtain ⟨ht, hk, hd⟩ := record_all_facts uas 0 [] h0 (le_refl _) (by simpa using hlen)
    (by simp)
  refine ⟨by simpa [totalCount] using ht, ?_, hd⟩
  intro j
  rw [hk j]
  simp

/-- C28 on four observations of three user agents, two of which sanitize to the
same key. -/
theorem counter_totals_observations_witness :
    ["a,b".toList, "ab".toList, "c".toList, "ab".toList].foldl
        (fun s ua => record s (sanitize ua)) []
      = [("ab".toList, 3), ("c".toList, 1)]
    ∧ totalCount (["a,b".toList, "ab".toList, "c".toList, "ab".toList].foldl
        (fun s ua => record s (sanitize ua)) []) = 4 :=
  ⟨by decide,
    (counter_totals_observations ["a,b".toList, "ab".toList, "c".toList, "ab".toList]
      (by decide)).1⟩

/-! ## Records made while a flush is running -/

theorem flushCycle_stats (ans : FsAnswers) (fileDir : GoString) (now : Timestamp)
    (disk : Disk) (stats : Stats) (r : CycleResult)
    (h : flushCycle ans fileDir now disk stats = some r) :
    (∃ c, r.outcome = Outcome.written c ∧ r.stats = [])
      ∨ ((∀ c, r.outcome ≠ Outcome.written c) ∧ r.stats = stats) := by
  have htick := flushCycle_tick ans fileDir now disk stats
  rw [h] at htick
  simp only [Option.map_some'] at htick
  by_cases hne : stats = []
  · subst hne
    have hidle : flushCycle ans fileDir now disk [] = some (CycleResult.mk [] Outcome.idle disk [])
      := rfl
    rw [hidle] at h
    cases h
    exact Or.inr ⟨fun c hc => Outcome.noConfusion hc, rfl⟩
  · by_cases hw : ∃ c, r.outcome = Outcome.written c
    · obtain ⟨c, hc⟩ := hw
      left
      refine ⟨c, hc, ?_⟩
      rw [hc] at htick
      exact (tick_counter_after _ stats hne).1 r.stats c htick.symm
    · right
      have hw' : ∀ c, r.outcome ≠ Outcome.written c := fun c hc => hw ⟨c, hc⟩
      refine ⟨hw', ?_⟩
      exact (tick_counter_after _ stats hne).2 r.stats r.outcome htick.symm hw'

theorem recordAll_append (a b : List GoString) (stats : Stats) :
    recordAll (a ++ b) stats = recordAll b (recordAll a stats) := by
  simp [recordAll, List.foldl_append]

theorem mapSet_ne_nil (stats : Stats) (k : GoString) (c : Int) : mapSet stats k c ≠ [] := by
  cases stats with
  | nil => simp [mapSet]
  | cons e rest =>
    obtain ⟨k', c'⟩ := e
    unfold mapSet
    split <;> simp

theorem record_ne_nil (stats : Stats) (k : GoString) : record stats k ≠ [] := by
  unfold record
  split <;> exact mapSet_ne_nil _ _ _

theorem recordAll_ne_nil (uas : List GoString) :
    ∀ stats : Stats, stats ≠ [] → recordAll uas stats ≠ [] := by
  induction uas with
  | nil => intro stats h; exact h
  | cons ua rest ih =>
    intro stats _
    exact ih _ (record_ne_nil stats (sanitize ua))

theorem recordAll_eq_nil (uas : List GoString) (stats : Stats)
    (h : recordAll uas stats = []) : uas = [] ∧ stats = [] := by
  cases uas with
  | nil => exact ⟨rfl, h⟩
  | cons ua rest =>
    exact absurd h (recordAll_ne_nil rest _ (record_ne_nil stats (sanitize ua)))

theorem runEvents_append_cons (ans : FsAnswers) (fileDir : GoString) (now : Timestamp)
    (a : List Event) (e : Event) (b : List Event) (s : Running) :
    runEvents ans fileDir now (a ++ e :: b) s
      = runEvents ans fileDir now b
          (stepEvent ans fileDir now (runEvents ans fileDir now a s) e) := by
  simp [runEvents, List.foldl_append]

/-- Requests counted in a row, the flush goroutine standing still. -/
theorem runEvents_requests (ans : FsAnswers) (fileDir : GoString) (now : Timestamp)
    (uas : List GoString) :
    ∀ (stats : Stats) (disk : Disk) (pc : FlushPc), pc ≠ FlushPc.crashed →
      runEvents ans fileDir now (uas.map Event.request) (Running.mk stats disk pc)
        = Running.mk (recordAll uas stats) disk pc := by
  induction uas with
  | nil => intro stats disk pc _; rfl
  | cons ua rest ih =>
    intro stats disk pc hpc
    have hstep : stepEvent ans fileDir now (Running.mk stats disk pc) (Event.request ua)
        = Running.mk (record stats (sanitize ua)) disk pc := by
      cases pc with
      | crashed => exact absurd rfl hpc
      | beforeTest => rfl
      | beforeMerge => rfl
      | beforeReset c => rfl
      | finished o => rfl
    have hrun : runEvents ans fileDir now ((ua :: rest).map Event.request)
          (Running.mk stats disk pc)
        = runEvents ans fileDir now (rest.map Event.request)
          (stepEvent ans fileDir now (Running.mk stats disk pc) (Event.request ua)) := rfl
    rw [hrun, hstep, ih _ _ _ hpc]
    rfl

/-- C22, as stated, fails.  Empty counter and filesystem, every call succeeding.
A request of `ua-x` is counted, the flush goroutine passes the test of line 139
and runs the merge loop and the write, a second request of `ua-x` is counted,
and the flush goroutine runs line 202.  The partition holds `"ua-x",1` and the
counter is empty: the second observation is neither in the partition nor in the
counter. -/
theorem record_during_flush_is_lost :
    runEvents (FsAnswers.mk true true true true true true) "./logs/helprob".toList
        (Timestamp.mk 2026 11 4 10 0 0)
        [Event.request "ua-x".toList, Event.flush, Event.flush,
         Event.request "ua-x".toList, Event.flush]
        (Running.mk [] (Disk.mk [] []) FlushPc.beforeTest)
      = Running.mk []
          (Disk.mk ["logs/helprob/2026/November".toList, "logs/helprob/2026".toList,
              "logs/helprob".toList, "logs".toList]
            [("logs/helprob/2026/November/4.csv".toList, "\"ua-x\",1".toList)])
          (FlushPc.finished (Outcome.written "\"ua-x\",1".toList)) := by
  decide

/-- C22, amended.  One iteration of the flush loop next to the handler, for
every placing of the counted requests among the accesses of the flush goroutine
to the counter: `pre0` before the test of line 139, `pre1` between the test and
the merge loop, `mid` between the merge loop and line 202, `post` after it.

* When the counter is empty at the test, the iteration ends idle, the
  filesystem is untouched and every request is in the counter.
* Otherwise lines 144-199 run on the counter holding `pre0` and `pre1`:
  - when they end with a successful write, the filesystem is the one they
    leave, which does not depend on `mid`, and the counter left holds exactly
    the requests of `post`: the requests of `mid` are in neither;
  - when they end otherwise, the counter left holds every request;
  - when the merge loop panics, the process stops. -/
theorem requests_interleaved_with_a_tick (ans : FsAnswers) (fileDir : GoString)
    (now : Timestamp) (disk : Disk) (stats : Stats) (pre0 pre1 mid post : List GoString) :
    (recordAll pre0 stats = [] →
        runEvents ans fileDir now
            (pre0.map Event.request ++ Event.flush :: (pre1.map Event.request
              ++ Event.flush :: (mid.map Event.request ++ Event.flush
                :: post.map Event.request)))
            (Running.mk stats disk FlushPc.beforeTest)
          = Running.mk (recordAll (pre1 ++ (mid ++ post)) []) disk
              (FlushPc.finished Outcome.idle))
      ∧ (recordAll pre0 stats ≠ [] →
          ∀ r, flushCycle ans fileDir now disk (recordAll (pre0 ++ pre1) stats) = some r →
            (∀ c, r.outcome = Outcome.written c →
              runEvents ans fileDir now
                  (pre0.map Event.request ++ Event.flush :: (pre1.map Event.request
                    ++ Event.flush :: (mid.map Event.request ++ Event.flush
                      :: post.map Event.request)))
                  (Running.mk stats disk FlushPc.beforeTest)
                = Running.mk (recordAll post []) r.disk
                    (FlushPc.finished (Outcome.written c)))
            ∧ ((∀ c, r.outcome ≠ Outcome.written c) →
              runEvents ans fileDir now
                  (pre0.map Event.request ++ Event.flush :: (pre1.map Event.request
                    ++ Event.flush :: (mid.map Event.request ++ Event.flush
                      :: post.map Event.request)))
                  (Running.mk stats disk FlushPc.beforeTest)
                = Running.mk (recordAll (pre0 ++ (pre1 ++ (mid ++ post))) stats) r.disk
                    (FlushPc.finished r.outcome)))
      ∧ (recordAll pre0 stats ≠ [] →
          flushCycle ans fileDir now disk (recordAll (pre0 ++ pre1) stats) = none →
          (runEvents ans fileDir now
              (pre0.map Event.request ++ Event.flush :: (pre1.map Event.request
                ++ Event.flush :: (mid.map Event.request ++ Event.flush
                  :: post.map Event.request)))
              (Running.mk stats disk FlushPc.beforeTest)).pc = FlushPc.crashed) := by
  have hstart : runEvents ans fileDir now (pre0.map Event.request)
      (Running.mk stats disk FlushPc.beforeTest)
      = Running.mk (recordAll pre0 stats) disk FlushPc.beforeTest :=
    runEvents_requests ans fileDir now pre0 stats disk _ (by simp)
  refine ⟨?_, ?_, ?_⟩
  · intro hempty
    have htest : stepEvent ans fileDir now
        (Running.mk (recordAll pre0 stats) disk FlushPc.beforeTest) Event.flush
        = Running.mk [] disk (FlushPc.finished Outcome.idle) := by
      simp [stepEvent, hempty]
    have hidle : ∀ st : Stats, stepEvent ans fileDir now
        (Running.mk st disk (FlushPc.finished Outcome.idle)) Event.flush
        = Running.mk st disk (FlushPc.finished Outcome.idle) := fun _ => rfl
    rw [runEvents_append_cons, hstart, htest, runEvents_append_cons,
      runEvents_requests _ _ _ pre1 _ _ _ (by simp), hidle, runEvents_append_cons,
      runEvents_requests _ _ _ mid _ _ _ (by simp), hidle,
      runEvents_requests _ _ _ post _ _ _ (by simp)]
    simp [recordAll_append]
  · intro hne r hr
    have hlen : ¬ (recordAll pre0 stats).length = 0 := fun h => hne (List.length_eq_zero.mp h)
    have htest : stepEvent ans fileDir now
        (Running.mk (recordAll pre0 stats) disk FlushPc.beforeTest) Event.flush
        = Running.mk (recordAll pre0 stats) disk FlushPc.beforeMerge := by
      simp [stepEvent, hlen]
    have hr' : flushCycle ans fileDir now disk (recordAll pre1 (recordAll pre0 stats)) = some r := by
      rw [← recordAll_append]; exact hr
    refine ⟨?_, ?_⟩
    · intro c hc
      have hmerge : stepEvent ans fileDir now
          (Running.mk (recordAll pre1 (recordAll pre0 stats)) disk FlushPc.beforeMerge)
          Event.flush
          = Running.mk (recordAll pre1 (recordAll pre0 stats)) r.disk (FlushPc.beforeReset c) := by
        simp [stepEvent, hr', hc]
      have hreset : ∀ st : Stats, stepEvent ans fileDir now
          (Running.mk st r.disk (FlushPc.beforeReset c)) Event.flush
          = Running.mk [] r.disk (FlushPc.finished (Outcome.written c)) := fun _ => rfl
      rw [runEvents_append_cons, hstart, htest, runEvents_append_cons,
        runEvents_requests _ _ _ pre1 _ _ _ (by simp), hmerge, runEvents_append_cons,
        runEvents_requests _ _ _ mid _ _ _ (by simp), hreset,
        runEvents_requests _ _ _ post _ _ _ (by simp)]
    · intro hno
      have hmerge : stepEvent ans fileDir now
          (Running.mk (recordAll pre1 (recordAll pre0 stats)) disk FlushPc.beforeMerge)
          Event.flush
          = Running.mk (recordAll pre1 (recordAll pre0 stats)) r.disk
              (FlushPc.finished r.outcome) := by
        simp only [stepEvent, hr']
      have hdone : ∀ st : Stats, stepEvent ans fileDir now
          (Running.mk st r.disk (FlushPc.finished r.outcome)) Event.flush
          = Running.mk st r.disk (FlushPc.finished r.outcome) := fun _ => rfl
      rw [runEvents_append_cons, hstart, htest, runEvents_append_cons,
        runEvents_requests _ _ _ pre1 _ _ _ (by simp), hmerge, runEvents_append_cons,
        runEvents_requests _ _ _ mid _ _ _ (by simp), hdone,
        runEvents_requests _ _ _ post _ _ _ (by simp)]
      simp [recordAll_append]
  · intro hne hr
    have hlen : ¬ (recordAll pre0 stats).length = 0 := fun h => hne (List.length_eq_zero.mp h)
    have htest : stepEvent ans fileDir now
        (Running.mk (recordAll pre0 stats) disk FlushPc.beforeTest) Event.flush
        = Running.mk (recordAll pre0 stats) disk FlushPc.beforeMerge := by
      simp [stepEvent, hlen]
    have hr' : flushCycle ans fileDir now disk (recordAll pre1 (recordAll pre0 stats)) = none := by
      rw [← recordAll_append]; exact hr
    have hmerge : stepEvent ans fileDir now
        (Running.mk (recordAll pre1 (recordAll pre0 stats)) disk FlushPc.beforeMerge)
        Event.flush
        = Running.mk (recordAll pre1 (recordAll pre0 stats)) (diskAtMerge fileDir now disk)
            FlushPc.crashed := by
      simp [stepEvent, hr']
    have hstay : ∀ (events : List Event) (st : Stats) (d : Disk),
        (runEvents ans fileDir now events (Running.mk st d FlushPc.crashed)).pc
          = FlushPc.crashed := by
      intro events
      induction events with
      | nil => intro st d; rfl
      | cons e rest ih =>
        intro st d
        have hstep : stepEvent ans fileDir now (Running.mk st d FlushPc.crashed) e
            = Running.mk st d FlushPc.crashed := by
          cases e <;> rfl
        show (runEvents ans fileDir now rest
          (stepEvent ans fileDir now (Running.mk st d FlushPc.crashed) e)).pc = _
        rw [hstep]
        exact ih st d
    rw [runEvents_append_cons, hstart, htest, runEvents_append_cons,
      runEvents_requests _ _ _ pre1 _ _ _ (by simp), hmerge]
    exact hstay _ _ _

/-- C22 amended, on one request of `ua-x` before the test, one of `ua-x` between
the merge loop and line 202, one of `ua-y` after line 202: the partition holds
`"ua-x",1` and the counter left holds `ua-y` only. -/
theorem requests_interleaved_with_a_tick_witness :
    runEvents (FsAnswers.mk true true true true true true) "./logs/helprob".toList
        (Timestamp.mk 2026 11 4 10 0 0)
        [Event.request "ua-x".toList, Event.flush, Event.flush,
         Event.request "ua-x".toList, Event.flush, Event.request "ua-y".toList]
        (Running.mk [] (Disk.mk [] []) FlushPc.beforeTest)
      = Running.mk [("ua-y".toList, 1)]
          (Disk.mk ["logs/helprob/2026/November".toList, "logs/helprob/2026".toList,
              "logs/helprob".toList, "logs".toList]
            [("logs/helprob/2026/November/4.csv".toList, "\"ua-x\",1".toList)])
          (FlushPc.finished (Outcome.written "\"ua-x\",1".toList)) :=
  ((requests_interleaved_with_a_tick (FsAnswers.mk true true true true true true)
      "./logs/helprob".toList (Timestamp.mk 2026 11 4 10 0 0) (Disk.mk [] []) []
      ["ua-x".toList] [] ["ua-x".toList] ["ua-y".toList]).2.1 (by decide)
      (CycleResult.mk [] (Outcome.written "\"ua-x\",1".toList)
        (Disk.mk ["logs/helprob/2026/November".toList, "logs/helprob/2026".toList,
            "logs/helprob".toList, "logs".toList]
          [("logs/helprob/2026/November/4.csv".toList, "\"ua-x\",1".toList)])
        [FsCall.mkdirAll "logs/helprob/2026/November".toList,
         FsCall.openFile "logs/helprob/2026/November/4.csv".toList,
         FsCall.readAll, FsCall.truncate, FsCall.seek,
         FsCall.write "\"ua-x\",1".toList, FsCall.close])
      (by decide)).1 "\"ua-x\",1".toList rfl

/-! ## Letters -/

theorem upper_letter_facts (c : Char) (h1 : 65 ≤ c.toNat) (h2 : c.toNat ≤ 90) :
    (toLowerChar c).toNat = c.toNat + 32 ∧ toUpperChar (toLowerChar c) = c := by
  have key : ∀ n, n < 91 → (65 ≤ n →
      (toLowerChar (Char.ofNat n)).toNat = n + 32
        ∧ toUpperChar (toLowerChar (Char.ofNat n)) = Char.ofNat n) := by
    decide
  have := key c.toNat (by omega) h1
  rwa [Char.ofNat_toNat] at this

theorem lower_letter_facts (c : Char) (h1 : 97 ≤ c.toNat) (h2 : c.toNat ≤ 122) :
    toLowerChar c = c ∧ isLetter c = true := by
  constructor
  · unfold toLowerChar
    rw [if_neg (by omega)]
  · unfold isLetter
    exact decide_eq_true (Or.inr ⟨h1, h2⟩)

theorem lower_letter_not_mid (c : Char) (h1 : 97 ≤ c.toNat) (h2 : c.toNat ≤ 122) :
    isMidChar c = false := by
  unfold isMidChar
  exact decide_eq_false (by omega)

/-- The title caser on a letter that is not followed by anything special: the
letter is cased by its place in the word and the word goes on. -/
theorem titleFrom_letter (atStart : Bool) (c : Char) (s : GoString)
    (hlet : isLetter c = true) (hmid : isMidChar c = false) :
    titleFrom atStart (c :: s)
      = (if atStart = true then toUpperChar c else toLowerChar c) :: titleFrom false s := by
  simp [titleFrom, hlet, hmid]

theorem isName_cases (n : GoString) (h : isName n = true) :
    ∃ U ls, n = U :: ls ∧ (65 ≤ U.toNat ∧ U.toNat ≤ 90)
      ∧ ∀ x ∈ ls, 97 ≤ x.toNat ∧ x.toNat ≤ 122 := by
  cases n with
  | nil => simp [isName] at h
  | cons U ls =>
    simp only [isName, Bool.and_eq_true, decide_eq_true_eq, List.all_eq_true] at h
    exact ⟨U, ls, rfl, h.1, h.2⟩

theorem toLower_name_chars (n : GoString) (h : isName n = true) :
    ∀ c ∈ toLower n, 97 ≤ c.toNat ∧ c.toNat ≤ 122 := by
  obtain ⟨U, ls, rfl, hU, hls⟩ := isName_cases n h
  intro c hc
  simp only [toLower, List.map_cons, List.mem_cons, List.mem_map] at hc
  rcases hc with hc | ⟨x, hx, hxc⟩
  · rw [hc, (upper_letter_facts U hU.1 hU.2).1]
    omega
  · rw [← hxc, (lower_letter_facts x (hls x hx).1 (hls x hx).2).1]
    exact hls x hx

theorem not_mem_of_lower (s : GoString) (hs : ∀ c ∈ s, 97 ≤ c.toNat ∧ c.toNat ≤ 122)
    (x : Char) (hx : x.toNat < 97) : x ∉ s := by
  intro hmem
  have := (hs x hmem).1
  omega

theorem replaceAll_of_not_mem (old : Char) (repl s : GoString) (h : old ∉ s) :
    replaceAll old repl s = s := by
  induction s with
  | nil => rfl
  | cons c s ih =>
    have hc : c ≠ old := fun e => h (by simp [e])
    have hs : old ∉ s := fun e => h (by simp [e])
    simp [replaceAll, hc, ih hs]

theorem replaceAll_append (old : Char) (repl a b : GoString) :
    replaceAll old repl (a ++ b) = replaceAll old repl a ++ replaceAll old repl b := by
  induction a with
  | nil => rfl
  | cons c a ih =>
    by_cases hc : c = old
    · simp [replaceAll, hc, ih]
    · simp [replaceAll, hc, ih]

theorem titleFrom_lower_run (ls t : GoString) (hls : ∀ x ∈ ls, 97 ≤ x.toNat ∧ x.toNat ≤ 122) :
    titleFrom false (ls.map toLowerChar ++ t) = ls ++ titleFrom false t := by
  induction ls with
  | nil => rfl
  | cons c ls ih =>
    obtain ⟨hlow, hlet⟩ := lower_letter_facts c (hls c (by simp)).1 (hls c (by simp)).2
    have hmid := lower_letter_not_mid c (hls c (by simp)).1 (hls c (by simp)).2
    rw [List.map_cons, List.cons_append, hlow, titleFrom_letter false c _ hlet hmid,
      ih (fun x hx => hls x (List.mem_cons_of_mem _ hx))]
    simp [hlow]

/-- Title-casing the lower-case form of a name gives the name back. -/
theorem titleFrom_name (n t : GoString) (h : isName n = true) :
    titleFrom true (toLower n ++ t) = n ++ titleFrom false t := by
  obtain ⟨U, ls, rfl, hU, hls⟩ := isName_cases n h
  obtain ⟨hnat, hup⟩ := upper_letter_facts U hU.1 hU.2
  have hlet : isLetter (toLowerChar U) = true := by
    unfold isLetter
    exact decide_eq_true (Or.inr ⟨by omega, by omega⟩)
  have hmid : isMidChar (toLowerChar U) = false :=
    lower_letter_not_mid _ (by omega) (by omega)
  rw [toLower, List.map_cons, List.cons_append, titleFrom_letter true _ _ hlet hmid,
    titleFrom_lower_run ls t hls]
  simp [hup]

theorem titleFrom_space (t : GoString) : titleFrom false (' ' :: t) = ' ' :: titleFrom true t := by
  have h1 : isLetter ' ' = false := by decide
  have h2 : isMidChar ' ' = false := by decide
  have h3 : isWordChar ' ' = false := by decide
  simp [titleFrom, h1, h2, h3]

theorem sprintfOne_literal (arg : GoString) (argLeft : Bool) (p f : GoString)
    (hp : '%' ∉ p) :
    sprintfOne arg argLeft (p ++ f) = (sprintfOne arg argLeft f).map (fun out => p ++ out) := by
  induction p with
  | nil => simp
  | cons c p ih =>
    have hc : c ≠ '%' := fun e => hp (by simp [e])
    have hp' : '%' ∉ p := fun e => hp (by simp [e])
    rw [List.cons_append, sprintfOne.eq_def]
    simp only [hc, if_false]
    rw [ih hp']
    cases sprintfOne arg argLeft f <;> rfl

theorem sprintfOne_plain (arg f : GoString) (hf : '%' ∉ f) :
    sprintfOne arg false f = some f := by
  have h := sprintfOne_literal arg false f [] hf
  simpa [sprintfOne] using h

theorem sprintfOne_verb (arg f : GoString) :
    sprintfOne arg true ('%' :: 's' :: f) = (sprintfOne arg false f).map (fun out => arg ++ out) := by
  rw [sprintfOne.eq_def]
  simp only [if_true]
  cases sprintfOne arg false f <;> rfl

/-- The link of a domain without percent sign. -/
theorem linkOf_eq (domain name1 name2 name3 : GoString) (hd : '%' ∉ domain) :
    linkOf domain name1 name2 name3
      = some ("http://".toList ++ (subdomainOf name1 name2 name3 ++ '.' :: (domain ++ ['/']))) := by
  have hbase : baseLink domain = "http://".toList ++ ('%' :: 's' :: ('.' :: (domain ++ ['/']))) := by
    have : "http://%s.".toList = "http://".toList ++ ['%', 's', '.'] := by decide
    simp [baseLink, this]
  have hrest : '%' ∉ '.' :: (domain ++ ['/']) := by
    simp only [List.mem_cons, List.mem_append, List.mem_singleton, not_or]
    exact ⟨by decide, hd, by decide⟩
  unfold linkOf
  rw [hbase, sprintfOne_literal _ _ _ _ (by decide), sprintfOne_verb,
    sprintfOne_plain _ _ hrest]
  rfl

theorem toLower_join_dash (name1 name2 name3 : GoString) :
    subdomainOf name1 name2 name3
      = toLower name1 ++ '-' :: (toLower name2 ++ '-' :: toLower name3) := by
  have hdash : toLowerChar '-' = '-' := by decide
  simp [subdomainOf, toLower, join, hdash]

set_option maxRecDepth 100000 in
/-- Every entry of the table `names` is one upper-case ASCII letter followed by
lower-case ASCII letters. -/
theorem names_shape : names.all isName = true := by decide

theorem pickName_isName (i : Nat) (hi : i < names.length) : isName (pickName i) = true := by
  have hall := List.all_eq_true.mp names_shape
  apply hall
  unfold pickName
  rw [List.getD_eq_getElem _ _ hi]
  exact List.getElem_mem _

theorem subdomain_chars (name1 name2 name3 : GoString) (h1 : isName name1 = true)
    (h2 : isName name2 = true) (h3 : isName name3 = true) (x : Char) (hx : x.toNat < 97)
    (hdash : x ≠ '-') : x ∉ subdomainOf name1 name2 name3 := by
  have n1 := not_mem_of_lower _ (toLower_name_chars name1 h1) x hx
  have n2 := not_mem_of_lower _ (toLower_name_chars name2 h2) x hx
  have n3 := not_mem_of_lower _ (toLower_name_chars name3 h3) x hx
  rw [toLower_join_dash]
  simp only [List.mem_append, List.mem_cons, not_or]
  exact ⟨n1, hdash, n2, hdash, n3⟩

theorem titleOf_eq (name1 name2 name3 : GoString) :
    titleOf name1 name2 name3 = name1 ++ ' ' :: (name2 ++ ' ' :: name3) := by
  simp [titleOf, join]

/-! ## Links and page names -/

/-- C23 (a percent sign in the domain breaks the link).  Line 84 splices the
domain into the format string of line 101, so `fmt.Sprintf` reads the domain as
part of the format.  With `DOMAIN=a%sb.org` and the first three names of the
table, the format is `http://%s.a%sb.org/`, its second `%s` has no operand, and
the link is `http://jacob-mason-william.a%!s(MISSING)b.org/` instead of
`http://jacob-mason-william.a%sb.org/`; a doubled percent sign is halved.  The
title is not affected. -/
theorem link_breaks_on_percent_in_domain :
    baseLink "a%sb.org".toList = "http://%s.a%sb.org/".toList
      ∧ subdomainOf (pickName 0) (pickName 1) (pickName 2) = "jacob-mason-william".toList
      ∧ linkOf "a%sb.org".toList (pickName 0) (pickName 1) (pickName 2)
          = some "http://jacob-mason-william.a%!s(MISSING)b.org/".toList
      ∧ linkOf "a%sb.org".toList (pickName 0) (pickName 1) (pickName 2)
          ≠ some ("http://".toList ++ (subdomainOf (pickName 0) (pickName 1) (pickName 2)
              ++ '.' :: ("a%sb.org".toList ++ ['/'])))
      ∧ linkOf "a%%b.org".toList (pickName 0) (pickName 1) (pickName 2)
          = some "http://jacob-mason-william.a%b.org/".toList
      ∧ titleOf (pickName 0) (pickName 1) (pickName 2) = "Jacob Mason William".toList := by
  decide

/-- The link and the title of one round of the loop of lines 90-107, for a domain
without percent sign and three names drawn from the table `names`: the link is
`http://<sub>.<domain>/`, where `<sub>` is the lower-case form of the names
joined by dashes and contains no space, and the title is the names joined by
single spaces. -/
theorem link_generation (domain : GoString) (i1 i2 i3 : Nat) (hd : '%' ∉ domain)
    (h1 : i1 < names.length) (h2 : i2 < names.length) (h3 : i3 < names.length) :
    linkOf domain (pickName i1) (pickName i2) (pickName i3)
        = some ("http://".toList
            ++ (subdomainOf (pickName i1) (pickName i2) (pickName i3) ++ '.' :: (domain ++ ['/'])))
      ∧ subdomainOf (pickName i1) (pickName i2) (pickName i3)
        = toLower (pickName i1 ++ '-' :: (pickName i2 ++ '-' :: pickName i3))
      ∧ ' ' ∉ subdomainOf (pickName i1) (pickName i2) (pickName i3)
      ∧ titleOf (pickName i1) (pickName i2) (pickName i3)
        = pickName i1 ++ ' ' :: (pickName i2 ++ ' ' :: pickName i3)
      ∧ (∀ picks : List (Nat × Nat × Nat), (i1, i2, i3) ∈ picks →
          (linkOf domain (pickName i1) (pickName i2) (pickName i3),
            titleOf (pickName i1) (pickName i2) (pickName i3)) ∈ generateLinks domain picks) := by
  refine ⟨linkOf_eq domain _ _ _ hd, by simp [subdomainOf, join],
    subdomain_chars _ _ _ (pickName_isName i1 h1) (pickName_isName i2 h2)
      (pickName_isName i3 h3) ' ' (by decide) (by decide),
    titleOf_eq _ _ _, ?_⟩
  intro picks hp
  unfold generateLinks
  exact List.mem_map.mpr ⟨(i1, i2, i3), hp, rfl⟩

set_option maxRecDepth 100000 in
/-- The link and the title at the default domain, for the first, the second and
the last name of the table. -/
theorem link_generation_witness :
    linkOf "0.0.0.0:8070".toList (pickName 0) (pickName 1) (pickName 999)
        = some "http://jacob-mason-ethen.0.0.0.0:8070/".toList
      ∧ titleOf (pickName 0) (pickName 1) (pickName 999) = "Jacob Mason Ethen".toList :=
  have h := link_generation "0.0.0.0:8070".toList 0 1 999 (by decide) (by decide) (by decide)
    (by decide)
  ⟨h.1.trans (by decide), h.2.2.2.1.trans (by decide)⟩

/-- C29 (round trip of link and page name).  For three names of the shape of
the table entries (one upper-case ASCII letter followed by lower-case ASCII
letters) and every domain: with the host `<sub>.<domain>` of the generated link
as `Host` of a request, the name the handler computes is the title generated
for that link.  Every entry of the table `names` has that shape, and for a
domain without percent sign the generated link is `http://` followed by that
host and a slash. -/
theorem link_name_round_trip (domain name1 name2 name3 : GoString)
    (h1 : isName name1 = true) (h2 : isName name2 = true) (h3 : isName name3 = true) :
    currentName (subdomainOf name1 name2 name3 ++ '.' :: domain) = titleOf name1 name2 name3
      ∧ names.all isName = true
      ∧ ('%' ∉ domain → linkOf domain name1 name2 name3
          = some ("http://".toList
              ++ ((subdomainOf name1 name2 name3 ++ '.' :: domain) ++ ['/']))) := by
  refine ⟨?_, names_shape, ?_⟩
  · have hdot : '.' ∉ subdomainOf name1 name2 name3 :=
      subdomain_chars _ _ _ h1 h2 h3 '.' (by decide) (by decide)
    have hcontains : contains (subdomainOf name1 name2 name3 ++ '.' :: domain) ['.'] = true := by
      rw [contains_eq_true_iff]
      exact ⟨subdomainOf name1 name2 name3, domain, by simp⟩
    have hsplit : (split '.' (subdomainOf name1 name2 name3 ++ '.' :: domain)).headD []
        = subdomainOf name1 name2 name3 := by
      rw [split_append_sep '.' _ _ hdot]
      rfl
    have hd1 := not_mem_of_lower _ (toLower_name_chars name1 h1) '-' (by decide)
    have hd2 := not_mem_of_lower _ (toLower_name_chars name2 h2) '-' (by decide)
    have hd3 := not_mem_of_lower _ (toLower_name_chars name3 h3) '-' (by decide)
    have hrepl : replaceAll '-' [' '] (subdomainOf name1 name2 name3)
        = toLower name1 ++ (' ' :: (toLower name2 ++ (' ' :: (toLower name3 ++ [])))) := by
      have hcons : ∀ s : GoString, replaceAll '-' [' '] ('-' :: s)
          = ' ' :: replaceAll '-' [' '] s := by
        intro s
        simp [replaceAll]
      rw [toLower_join_dash, replaceAll_append, replaceAll_of_not_mem _ _ _ hd1, hcons,
        replaceAll_append, replaceAll_of_not_mem _ _ _ hd2, hcons,
        replaceAll_of_not_mem _ _ _ hd3]
      simp
    simp only [currentName, hcontains, if_true, hsplit, hrepl, titleCase]
    rw [titleFrom_name name1 _ h1, titleFrom_space, titleFrom_name name2 _ h2, titleFrom_space,
      titleFrom_name name3 _ h3, titleOf_eq]
    simp [titleFrom]
  · intro hd
    rw [linkOf_eq domain _ _ _ hd]
    simp

/-- C29 at the names `Jacob`, `Mason`, `Ethen` and the default domain. -/
theorem link_name_round_trip_witness :
    currentName "jacob-mason-ethen.0.0.0.0:8070".toList = "Jacob Mason Ethen".toList :=
  have h := link_name_round_trip "0.0.0.0:8070".toList "Jacob".toList "Mason".toList
    "Ethen".toList (by decide) (by decide) (by decide)
  ((congrArg currentName (by decide)).trans h.1).trans (by decide)

end Gridlock
